import Mathlib

/-!
# Verification of the Luxura catalog synchronization engine

Shallow embedding of the Wix → Luxura catalog synchronization pipeline:

* `app/services/catalog_normalizer.py` — `normalize_variant` (variant normalizer);
* `app/routes/wix.py` — `upsert_inventory_entrepot`, the `/wix/sync` route
  `sync_wix_to_luxura` (identity resolution, SKU-drift merge, inventory
  reconciliation, counters).

External JSON values are modelled by `PAtom`/`PVal` (dictionaries nested at most
two levels deep, which covers every field shape the engine reads: `priceData`,
`skuData`, `inventory`, `choices`, the structured `sku` object).  Python
truthiness, `str()`, `int()`/`float()` coercion and `dict.get` are modelled
explicitly; the textual `str()` rendering of numbers is abstracted to a fixed
deterministic form (the engine only ever tests the result for emptiness or
strips it).  The relational store is a list of rows with a running
auto-increment id; query `.first()` is modelled as the first list element in
insertion order.
-/

namespace Luxura

/-- Atomic Python value: `None`, a string, a number (`int`/`float` merged into
`ℚ`, which is faithful for the comparisons and coercions the engine performs),
or a boolean. -/
inductive PAtom where
  | anone
  | astr (s : String)
  | anum (q : ℚ)
  | abool (b : Bool)
deriving Repr, DecidableEq

/-- A Python value as read from the external catalog JSON: an atom or a (flat)
dictionary of atoms.  The source only ever indexes two levels deep into the
objects modelled here. -/
inductive PVal where
  | atom (a : PAtom)
  | pdict (entries : List (String × PAtom))
deriving Repr, DecidableEq

/-- A JSON object (Python dict) as passed around by the engine. -/
abbrev Dict := List (String × PVal)

/-- The ASCII single-quote character Python `repr()` wraps strings in. -/
def pyQuote : String := String.mk [Char.ofNat 39]

namespace PAtom

/-- Python truthiness of an atom. -/
def truthy : PAtom → Bool
  | .anone => false
  | .astr s => !(s == "")
  | .anum q => !(q == 0)
  | .abool b => b

/-- Deterministic stand-in for Python `str()` of a numeric value. -/
def ratStr (q : ℚ) : String :=
  if q.den == 1 then toString q.num else toString q.num ++ "/" ++ toString q.den

/-- Python `str()` of an atom. -/
def pyStr : PAtom → String
  | .anone => "None"
  | .astr s => s
  | .anum q => ratStr q
  | .abool b => if b then "True" else "False"

/-- Python `repr()` of an atom (strings are quoted), used inside dict `str()`. -/
def pyRepr : PAtom → String
  | .astr s => pyQuote ++ s ++ pyQuote
  | a => a.pyStr

end PAtom

namespace PVal

/-- Python truthiness of a value (a dict is truthy iff non-empty). -/
def truthy : PVal → Bool
  | .atom a => a.truthy
  | .pdict d => !d.isEmpty

/-- Python `str()` of a value; a dict renders as `{'k': repr(v), ...}` and is
therefore never the empty string. -/
def pyStr : PVal → String
  | .atom a => a.pyStr
  | .pdict d =>
      "\x7b" ++ String.intercalate ", "
        (d.map (fun kv => pyQuote ++ kv.1 ++ pyQuote ++ ": " ++ kv.2.pyRepr)) ++ "\x7d"

end PVal

/-- Python `a or b`. -/
def pyOr (a b : PVal) : PVal := if a.truthy then a else b

/-- Python `a or b` on atoms. -/
def pyOrA (a b : PAtom) : PAtom := if a.truthy then a else b

/-- `d.get(k)` on a JSON object: missing key yields `None`. -/
def dget (d : Dict) (k : String) : PVal :=
  match d.find? (fun kv => kv.1 == k) with
  | some kv => kv.2
  | none => PVal.atom .anone

/-- `d.get(k)` on an inner (atom-valued) object. -/
def dgetA (d : List (String × PAtom)) (k : String) : PAtom :=
  match d.find? (fun kv => kv.1 == k) with
  | some kv => kv.2
  | none => .anone

/-- `d.get(k, default)` on an inner object: the default is used only when the
key is absent (a key present with value `None` yields `None`). -/
def dgetDA (d : List (String × PAtom)) (k : String) (dflt : PAtom) : PAtom :=
  match d.find? (fun kv => kv.1 == k) with
  | some kv => kv.2
  | none => dflt

/-- `(x or {})` followed by use as a dict, plus the normalizer's
`if not isinstance(x, dict): x = {}` guard: a falsy value or a non-dict value
degrades to the empty object. -/
def asFields : PVal → List (String × PAtom)
  | .pdict d => d
  | .atom _ => []

/-- Python `s.strip()`: drop whitespace from both ends. -/
def pyStrip (s : String) : String :=
  String.mk (((s.toList.dropWhile Char.isWhitespace).reverse.dropWhile
    Char.isWhitespace).reverse)

/-- Strip-and-drop-empty, shared by the cleaners: `value.strip() or None`. -/
def strippedOrNone (s : String) : Option String :=
  let t := pyStrip s
  if t == "" then none else some t

/-- `_clean_str` (catalog_normalizer.py) on an atom: `None` stays `None`,
strings are stripped, anything else goes through `str()` first; an empty
result becomes `None`. -/
def cleanStrA : PAtom → Option String
  | .anone => none
  | .astr s => strippedOrNone s
  | a => strippedOrNone a.pyStr

/-- `_clean_str` (catalog_normalizer.py) on a value: a dict value falls into
the `str(value).strip()` branch and yields its (never-empty) rendering. -/
def cleanStr : PVal → Option String
  | .atom a => cleanStrA a
  | v => strippedOrNone v.pyStr

/-- `_first_non_empty_str` (catalog_normalizer.py). -/
def firstNonEmptyStr : List PVal → Option String
  | [] => none
  | v :: rest =>
    match cleanStr v with
    | some s => some s
    | none => firstNonEmptyStr rest

/-- Digit-string value; `none` on any non-digit character. -/
def digitsVal (cs : List Char) : Option Nat :=
  cs.foldl
    (fun acc c =>
      match acc with
      | some n => if c.isDigit then some (n * 10 + (c.toNat - 48)) else none
      | none => none)
    (some 0)

/-- Python `int(s)` on a (trimmed) string: optional sign followed by digits. -/
def parseIntStr (s : String) : Option Int :=
  match (pyStrip s).toList with
  | [] => none
  | '-' :: rest =>
      if rest.isEmpty then none else (digitsVal rest).map (fun n => -(n : Int))
  | '+' :: rest =>
      if rest.isEmpty then none else (digitsVal rest).map (fun n => (n : Int))
  | cs => (digitsVal cs).map (fun n => (n : Int))

/-- Unsigned decimal part of Python `float(s)`: `digits`, `digits.`,
`.digits` or `digits.digits`. -/
def parseDecimal (cs : List Char) : Option ℚ :=
  let intPart := cs.takeWhile (· ≠ '.')
  let rest := cs.dropWhile (· ≠ '.')
  match rest with
  | [] => (digitsVal intPart).map (fun n => (n : ℚ))
  | '.' :: frac =>
      if intPart.isEmpty && frac.isEmpty then none
      else
        match digitsVal intPart, digitsVal frac with
        | some i, some f => some ((i : ℚ) + (f : ℚ) / ((10 : ℚ) ^ frac.length))
        | _, _ => none
  | _ => none

/-- Python `float(s)` on a string. -/
def parseFloatStr (s : String) : Option ℚ :=
  match (pyStrip s).toList with
  | [] => none
  | '-' :: rest => (parseDecimal rest).map (fun q => -q)
  | '+' :: rest => parseDecimal rest
  | cs => parseDecimal cs

/-- Python `int(x)` on an atom; `none` models a raised exception
(truncation toward zero on numbers, as in CPython). -/
def pyIntA : PAtom → Option Int
  | .anone => none
  | .astr s => parseIntStr s
  | .anum q => some (Int.tdiv q.num (q.den : Int))
  | .abool b => some (if b then 1 else 0)

/-- Python `float(x)` on an atom; `none` models a raised exception. -/
def pyFloatA : PAtom → Option ℚ
  | .anone => none
  | .astr s => parseFloatStr s
  | .anum q => some q
  | .abool b => some (if b then 1 else 0)

/-- `s.strip(" —")`: drop spaces and em-dashes from both ends. -/
def stripSpaceDash (s : String) : String :=
  let isCut : Char → Bool := fun c => c == ' ' || c == '—'
  let l := (s.toList.dropWhile isCut).reverse.dropWhile isCut
  String.mk l.reverse

/-- The options bag the normalizer attaches to a draft
(`{"wix_variant_id": ..., "choices": ...}`); the route later adds an optional
`vendor_sku` key. -/
structure DraftOptions where
  wix_variant_id : String
  choices : List (String × PAtom)
  vendor_sku : Option String := none
deriving Repr, DecidableEq

/-- The dict `normalize_variant` returns: one canonical Product draft.
`track_quantity` / `quantity_adv` are the advisory `_track_quantity` /
`_quantity` entries (never persisted by the route). -/
structure Draft where
  wix_id : String
  sku : String
  name : String
  description : PVal
  price : ℚ
  handle : Option String
  is_in_stock : Bool
  quantity : Int
  options : DraftOptions
  track_quantity : Bool
  quantity_adv : Int
deriving Repr, DecidableEq

/-- `normalize_variant(parent, variant)` (catalog_normalizer.py):
one Wix variant = one Luxura product draft; returns `none` when either the
parent or the variant lacks a truthy external id. -/
def normalize_variant (parent variant : Dict) : Option Draft :=
  let wpid := pyOr (dget parent "id") (dget parent "_id")
  let wvid := pyOr (pyOr (dget variant "id") (dget variant "_id")) (dget variant "variantId")
  if wpid.truthy && wvid.truthy then
    let pidS := pyStrip wpid.pyStr
    let vidS := pyStrip wvid.pyStr
    let sku0 := firstNonEmptyStr
      [ dget variant "sku"
      , PVal.atom (dgetA (asFields (dget variant "variant")) "sku")
      , (match dget variant "sku" with
         | .pdict d => PVal.atom (dgetA d "value")
         | _ => PVal.atom .anone)
      , dget variant "stockKeepingUnit"
      , PVal.atom (dgetA (asFields (dget variant "skuData")) "sku") ]
    let sku := match sku0 with
      | some s => s
      | none => pidS ++ ":" ++ vidS
    let choices :=
      match pyOr (pyOr (dget variant "choices") (dget variant "options")) (PVal.pdict []) with
      | .pdict d => d
      | .atom _ => []
    let baseName := (cleanStr (dget parent "name")).getD "Sans nom"
    let suffix := String.intercalate " "
      (((choices.map Prod.snd).filter PAtom.truthy).map PAtom.pyStr)
    let name := if suffix == "" then baseName
                else stripSpaceDash (baseName ++ " — " ++ suffix)
    let invF := asFields (dget variant "inventory")
    let track := (dgetDA invF "trackQuantity" (.abool false)).truthy
    let qty := ((pyIntA (pyOrA (dgetDA invF "quantity" (.anum 0)) (.anum 0))).getD 0)
    let isInStock :=
      match dgetA invF "inStock" with
      | .abool b => b
      | _ => decide (qty > 0)
    let priceParent := pyOrA (dgetA (asFields (dget parent "priceData")) "price") (.anum 0)
    let priceVariant := pyOrA (dgetDA (asFields (dget variant "priceData")) "price" priceParent) (.anum 0)
    let price := (pyFloatA (pyOrA priceVariant (.anum 0))).getD 0
    let handle := cleanStr (pyOr (pyOr (dget parent "slug") (dget parent "handle")) (dget parent "urlPart"))
    let description :=
      if (dget parent "description").truthy then dget parent "description" else PVal.atom .anone
    some
      { wix_id := pidS
      , sku := sku
      , name := name
      , description := description
      , price := price
      , handle := handle
      , is_in_stock := isInStock
      , quantity := qty
      , options := { wix_variant_id := vidS, choices := choices }
      , track_quantity := track
      , quantity_adv := qty }
  else none

/-! ## Persisted store

The Product model used by the sync route (`from app.models.product import
Product`) is not present under `src/` — `app/models/product.py` holds route
code instead of the model.  Its columns are modelled from the fields the route
reads and writes (`wix_id`, `sku`, `name`, `description`, `price`, `handle`,
`is_in_stock`, `quantity`, `options`) and from spec §3.  `InventoryItem`
follows `app/models/inventory.py` (`salon_id`, `product_id`, `quantity`;
timestamps are irrelevant to the engine and omitted). -/

/-- One persisted Product row.  `id` is the primary key (auto-increment). -/
structure ProductRow where
  id : Nat
  wix_id : String
  sku : String
  name : String
  description : PVal
  price : ℚ
  handle : Option String
  is_in_stock : Bool
  quantity : Int
  options : DraftOptions
deriving Repr, DecidableEq

/-- One persisted InventoryItem row, keyed by `(salon_id, product_id)`. -/
structure InvRow where
  salon_id : Nat
  product_id : Nat
  quantity : Int
deriving Repr, DecidableEq

/-- The persisted store: Product and InventoryItem rows (in insertion order —
`.first()` picks the head of the matching sublist) plus the next
auto-increment Product id. -/
structure Store where
  products : List ProductRow
  invItems : List InvRow
  nextId : Nat
deriving Repr, DecidableEq

/-- One value of the prebuilt inventory map (`_build_inventory_map_v1`):
`{"track": bool, "qty": int, "vendor_sku": Optional[str]}` (the `inStock` key
is never read again).  `qty` is already an `int` there, so the route's
re-coercion `int(it.get("qty") or 0)` is the identity and is inlined. -/
structure InvInfo where
  track : Bool
  qty : Int
  vendor_sku : Option String := none
deriving Repr, DecidableEq

/-- The inventory map, keyed by `"<productId>:<variantId>"`. -/
abbrev InvMap := List (String × InvInfo)

/-- Lookup in the inventory map (`inv_map.get(key)`). -/
def lookupInv (m : InvMap) (k : String) : Option InvInfo :=
  match m.find? (fun kv => kv.1 == k) with
  | some kv => some kv.2
  | none => none

/-- Mutable state of one `/wix/sync` pass: the store plus the route's counters.
`merged` is not a counter of the route; it counts executions of the
anti-duplicate merge block (one per `db.delete(existing)`) so that merge
bookkeeping can be stated. -/
structure SyncState where
  store : Store
  created : Nat := 0
  updated : Nat := 0
  skipped_no_sku : Nat := 0
  inv_written : Nat := 0
  parents_processed : Nat := 0
  variants_seen : Nat := 0
  merged : Nat := 0
deriving Repr, DecidableEq

/-- First Product row matching `Product.wix_id == wix_id` whose options carry
the requested `wix_variant_id` (the route's candidate loop). -/
def findByIdentity (ps : List ProductRow) (wixId wvid : String) : Option ProductRow :=
  (ps.filter (fun r => r.wix_id == wixId)).find?
    (fun r => r.options.wix_variant_id == wvid)

/-- First Product row with the given SKU
(`select(Product).where(Product.sku == sku)).first()`). -/
def findBySku (ps : List ProductRow) (sku : String) : Option ProductRow :=
  ps.find? (fun r => r.sku == sku)

/-- The row obtained by applying every field of a draft (the route's
`setattr(existing, field, value)` loop / `Product(**data)` constructor);
only the primary key is not in the draft. -/
def draftRow (i : Nat) (d : Draft) : ProductRow :=
  { id := i
  , wix_id := d.wix_id
  , sku := d.sku
  , name := d.name
  , description := d.description
  , price := d.price
  , handle := d.handle
  , is_in_stock := d.is_in_stock
  , quantity := d.quantity
  , options := d.options }

/-- `upsert_inventory_entrepot` (wix.py): first row with
`(salon_id, product_id)` gets `quantity = max(int(qty), 0)`; if absent a new
row is appended. -/
def upsert_inventory_entrepot (items : List InvRow) (salonId productId : Nat)
    (qty : Int) : List InvRow :=
  match items with
  | [] => [⟨salonId, productId, max qty 0⟩]
  | r :: rest =>
      if r.salon_id == salonId && r.product_id == productId then
        { r with quantity := max qty 0 } :: rest
      else
        r :: upsert_inventory_entrepot rest salonId productId qty

/-- First InventoryItem row for `(salon_id, product_id)`. -/
def lookupInvRow (items : List InvRow) (salonId productId : Nat) : Option InvRow :=
  items.find? (fun r => r.salon_id == salonId && r.product_id == productId)

/-- The route's `1) Trouver l'existant` block plus the `2) fallback par sku`
line: the candidate found by `(wix_id, wix_variant_id)` — only when both are
truthy — with a SKU-lookup fallback. -/
def existingOf (s : Store) (d : Draft) : Option ProductRow :=
  let existing0 : Option ProductRow :=
    if pyStrip d.wix_id != "" && d.options.wix_variant_id != "" then
      findByIdentity s.products (pyStrip d.wix_id) d.options.wix_variant_id
    else none
  match existing0 with
  | some e => some e
  | none => findBySku s.products (pyStrip d.sku)

/-- The merge block's store effect (`MERGE anti-doublon` in the route):
repoint every InventoryItem row of the superseded product to the SKU owner and
delete the superseded row. -/
def mergeStore (s : Store) (exId owId : Nat) : Store :=
  { s with
    invItems := s.invItems.map
      (fun r => if r.product_id == exId then { r with product_id := owId } else r)
  , products := s.products.filter (fun r => r.id ≠ exId) }

/-- The update arm of `apply update / create`: every draft field is written
onto the surviving row (`setattr` loop); `mergedInc` is 1 when the merge block
ran just before. -/
def applyUpdate (st : SyncState) (d : Draft) (store1 : Store) (mergedInc : Nat)
    (ex : ProductRow) : SyncState × Nat :=
  ({ st with
     store := { store1 with
       products := store1.products.map
         (fun r => if r.id == ex.id then draftRow r.id d else r) }
   , updated := st.updated + 1
   , merged := st.merged + mergedInc }
  , ex.id)

/-- The create arm of `apply update / create`: `Product(**data)` is inserted
with a fresh auto-increment id. -/
def applyCreate (st : SyncState) (d : Draft) : SyncState × Nat :=
  let row := draftRow st.store.nextId d
  ({ st with
     store := { st.store with
       products := st.store.products ++ [row]
     , nextId := st.store.nextId + 1 }
   , created := st.created + 1 }
  , row.id)

/-- Identity lookup, SKU-owner lookup, anti-duplicate merge and create/update
of one draft (wix.py, blocks 1–2, `MERGE anti-doublon` and
`apply update / create`).  When the candidate and the SKU owner are distinct
rows the merge block runs and the draft is applied to the SKU owner; when no
candidate exists the draft is inserted; otherwise the candidate is updated in
place.  Returns the new state and the surviving/created row id (`prod.id`). -/
def resolveApply (st : SyncState) (d : Draft) : SyncState × Nat :=
  match existingOf st.store d, findBySku st.store.products (pyStrip d.sku) with
  | some ex, some ow =>
      if ow.id ≠ ex.id then applyUpdate st d (mergeStore st.store ex.id ow.id) 1 ow
      else applyUpdate st d st.store 0 ex
  | some ex, none => applyUpdate st d st.store 0 ex
  | none, _ => applyCreate st d

/-- The inventory-map key the route builds for a variant:
`f"{wix_product_id}:{str(wix_variant_id).strip()}"`. -/
def invKey (wixProductId : String) (d : Draft) : String :=
  wixProductId ++ ":" ++ pyStrip d.options.wix_variant_id

/-- The `ENTREPOT inventory + vendor_sku` block of the route: look the variant
up in the prebuilt inventory map; if found, optionally record the vendor SKU on
the surviving row's options, and — only when tracking is enabled — upsert the
warehouse quantity. -/
def inventoryStep (invMap : InvMap) (entrepotId : Nat) (wixProductId : String)
    (d : Draft) (prodId : Nat) (st : SyncState) : SyncState :=
  let wvid := d.options.wix_variant_id
  if wvid != "" then
    match lookupInv invMap (invKey wixProductId d) with
    | some it =>
        let st1 :=
          match it.vendor_sku with
          | some vs =>
              if vs == "" then st
              else
                { st with store := { st.store with
                    products := st.store.products.map
                      (fun r => if r.id == prodId then
                          { r with options := { d.options with vendor_sku := some vs } }
                        else r) } }
          | none => st
        if it.track then
          { st1 with
            store := { st1.store with
              invItems := upsert_inventory_entrepot st1.store.invItems entrepotId prodId it.qty }
          , inv_written := st1.inv_written + 1 }
        else st1
    | none => st
  else st

/-- Processing of one raw variant inside the route's inner loop: count it,
normalize it (skipping drafts without a resolvable identity or SKU), resolve
and apply it, then reconcile inventory. -/
def processVariant (invMap : InvMap) (entrepotId : Nat) (wixProductId : String)
    (p v : Dict) (st : SyncState) : SyncState :=
  let st := { st with variants_seen := st.variants_seen + 1 }
  match normalize_variant p v with
  | none => { st with skipped_no_sku := st.skipped_no_sku + 1 }
  | some data =>
      if pyStrip data.sku == "" then { st with skipped_no_sku := st.skipped_no_sku + 1 }
      else
        let ra := resolveApply st data
        inventoryStep invMap entrepotId wixProductId data ra.2 ra.1

/-- External variant listings, keyed by the stripped parent id
(`client.query_variants_v1(wix_product_id)` as a pre-fetched table). -/
abbrev VariantsTable := List (String × List Dict)

/-- Variants of one parent (missing parent ⇒ empty listing, the route's
`or []`). -/
def variantsOf (vt : VariantsTable) (wixProductId : String) : List Dict :=
  match vt.find? (fun kv => kv.1 == wixProductId) with
  | some kv => kv.2
  | none => []

/-- Processing of one parent: parents without a truthy id are skipped without
being counted; otherwise its variants are fetched and processed in order. -/
def processParent (invMap : InvMap) (entrepotId : Nat) (vt : VariantsTable)
    (st : SyncState) (p : Dict) : SyncState :=
  let pid := pyOr (dget p "id") (dget p "_id")
  if pid.truthy then
    let wixProductId := pyStrip pid.pyStr
    (variantsOf vt wixProductId).foldl
      (fun s v => processVariant invMap entrepotId wixProductId p v s)
      { st with parents_processed := st.parents_processed + 1 }
  else st

/-- The whole per-parent loop of `/wix/sync`, starting from zero counters. -/
def runSyncCore (invMap : InvMap) (entrepotId : Nat) (vt : VariantsTable)
    (parents : List Dict) (db : Store) : SyncState :=
  parents.foldl (processParent invMap entrepotId vt) { store := db }

/-- The success payload of `/wix/sync` (counter fields; `inventory_meta_error`
is the `{"error": str(e)[:500]}` metadata recorded when the inventory
pre-fetch failed, `none` on a clean pre-fetch). -/
structure Summary where
  ok : Bool := true
  parents_processed : Nat
  variants_seen : Nat
  created : Nat
  updated : Nat
  skipped_no_sku : Nat
  inventory_written_entrepot : Nat
  inventory_meta_error : Option String := none
deriving Repr, DecidableEq

/-- Summary assembled from a finished pass. -/
def mkSummary (st : SyncState) (invErr : Option String) : Summary :=
  { parents_processed := st.parents_processed
  , variants_seen := st.variants_seen
  , created := st.created
  , updated := st.updated
  , skipped_no_sku := st.skipped_no_sku
  , inventory_written_entrepot := st.inv_written
  , inventory_meta_error := invErr }

/-- `sync_wix_to_luxura` (wix.py, `/wix/sync`): the external fetches enter as
results (`Except.error` = a raised transport exception).  A failed inventory
pre-fetch degrades to an empty map and is recorded in the summary metadata
(`str(e)[:500]`); a failed parents fetch aborts the run with an HTTP 500.  On
success the transaction commits and the summary plus the committed store are
returned. -/
def sync_wix_to_luxura (invFetch : Except String InvMap)
    (parentsFetch : Except String (List Dict)) (vt : VariantsTable)
    (entrepotId : Nat) (db : Store) : Except String (Summary × Store) :=
  let invPart : InvMap × Option String :=
    match invFetch with
    | .ok m => (m, none)
    | .error e => ([], some (e.take 500))
  match parentsFetch with
  | .error e => .error e
  | .ok parents =>
      let st := runSyncCore invPart.1 entrepotId vt parents db
      .ok (mkSummary st invPart.2, st.store)

/-- Modelled from the spec: `RunSync(limit, dryRun)` (§6, §4.5 step 3).  The
repository declares the dry-run flag on the `SyncRun` audit model
(`app/models/Sync_run.py`) but no orchestrator under `src/` consumes it; per
the spec a dry run computes every step identically — the counters come from the
very same pass — and ends in a rollback (the persisted store reverts to its
initial state) instead of a commit. -/
def RunSync (dryRun : Bool) (invFetch : Except String InvMap)
    (parentsFetch : Except String (List Dict)) (vt : VariantsTable)
    (entrepotId : Nat) (db : Store) : Except String (Summary × Store) :=
  let invPart : InvMap × Option String :=
    match invFetch with
    | .ok m => (m, none)
    | .error e => ([], some (e.take 500))
  match parentsFetch with
  | .error e => .error e
  | .ok parents =>
      let st := runSyncCore invPart.1 entrepotId vt parents db
      .ok (mkSummary st invPart.2, if dryRun then db else st.store)

/-! ## Specification predicates -/

/-- The counter partition the success summary is claimed to satisfy, plus the
bound tying the (ghost) merge counter to the update counter. -/
def CounterInv (st : SyncState) : Prop :=
  st.variants_seen = st.created + st.updated + st.skipped_no_sku ∧
  st.merged ≤ st.updated

/-- No two Product rows share a SKU. -/
def SkuUnique (s : Store) : Prop :=
  s.products.Pairwise (fun a b => a.sku ≠ b.sku)

/-- Primary-key sanity of the store: row ids are pairwise distinct and below
the auto-increment counter. -/
def IdsOk (s : Store) : Prop :=
  s.products.Pairwise (fun a b => a.id ≠ b.id) ∧ ∀ r ∈ s.products, r.id < s.nextId

/-- The identity key of a persisted row: (external parent id, external variant
id). -/
def rowIdent (r : ProductRow) : String × String :=
  (r.wix_id, r.options.wix_variant_id)

/-- The identity key of a draft. -/
def draftIdent (d : Draft) : String × String :=
  (d.wix_id, d.options.wix_variant_id)

/-- At most one Product row per (external parent id, external variant id)
pair (spec §3). -/
def IdentUnique (s : Store) : Prop :=
  s.products.Pairwise (fun a b => rowIdent a ≠ rowIdent b)

/-- The three store invariants the engine relies on. -/
def StoreOK (s : Store) : Prop := IdsOk s ∧ SkuUnique s ∧ IdentUnique s

/-- The drafts one parent contributes to a pass. -/
def parentDrafts (vt : VariantsTable) (p : Dict) : List Draft :=
  (variantsOf vt (pyStrip (pyOr (dget p "id") (dget p "_id")).pyStr)).filterMap
    (fun v => normalize_variant p v)

/-- All normalized drafts of a pass, in processing order. -/
def draftsOf (vt : VariantsTable) (parents : List Dict) : List Draft :=
  (parents.filter (fun p => (pyOr (dget p "id") (dget p "_id")).truthy)).flatMap
    (fun p => parentDrafts vt p)

/-- The options bag a draft's surviving row carries once the inventory block
has run: the draft's options, with the inventory map's non-empty vendor SKU
recorded when present. -/
def finalOptions (invMap : InvMap) (key : String) (d : Draft) : DraftOptions :=
  match lookupInv invMap key with
  | some it =>
      match it.vendor_sku with
      | some vs => if vs == "" then d.options else { d.options with vendor_sku := some vs }
      | none => d.options
  | none => d.options

/-- The fully-applied row a draft leaves behind after one processed variant. -/
def finalRow (invMap : InvMap) (key : String) (i : Nat) (d : Draft) : ProductRow :=
  { draftRow i d with options := finalOptions invMap key d }

/-- 1 when the inventory block writes a warehouse quantity for this key, else
0. -/
def invWrote (invMap : InvMap) (key : String) : Nat :=
  match lookupInv invMap key with
  | some it => if it.track then 1 else 0
  | none => 0

/-- The store already reflects draft `d`: a row with `d`'s identity carries
exactly the fully-applied value, and — when the inventory map tracks the
variant — the warehouse row carries the clamped external quantity. -/
def Synced (invMap : InvMap) (eid : Nat) (d : Draft) (s : Store) : Prop :=
  ∃ r ∈ s.products,
    rowIdent r = draftIdent d ∧
    r = finalRow invMap (invKey d.wix_id d) r.id d ∧
    (∀ it, lookupInv invMap (invKey d.wix_id d) = some it → it.track = true →
      lookupInvRow s.invItems eid r.id = some ⟨eid, r.id, max it.qty 0⟩)

/-- A draft whose external parent id and external variant id are both
non-empty, so the identity lookup is armed for it. -/
def GuardedDraft (d : Draft) : Prop :=
  d.wix_id ≠ "" ∧ d.options.wix_variant_id ≠ ""

/-- Two drafts that can never contend for the same row: distinct SKUs and
distinct (external parent id, external variant id) identities. -/
def DisjointDrafts (a b : Draft) : Prop :=
  a.sku ≠ b.sku ∧ draftIdent a ≠ draftIdent b

/-- Concrete idempotence input: one parent with a truthy external id. -/
def wParent6 : Dict :=
  [("id", .atom (.astr "p1")), ("name", .atom (.astr "Wig"))]

/-- Concrete idempotence input: one variant with an external id and a SKU. -/
def wVariant6 : Dict :=
  [("id", .atom (.astr "v1")), ("sku", .atom (.astr "SKU-6"))]

/-- Concrete idempotence input: the variant listing of parent p1. -/
def wVt6 : VariantsTable := [("p1", [wVariant6])]

/-- Concrete idempotence input: the parent listing. -/
def wParents6 : List Dict := [wParent6]

/-- Concrete idempotence input: an empty well-formed store. -/
def wDb6 : Store := ⟨[], [], 1⟩

/-- The single draft the idempotence input normalizes to. -/
def wDraft6 : Draft :=
  { wix_id := "p1", sku := "SKU-6", name := "Wig"
  , description := PVal.atom PAtom.anone, price := 0, handle := none
  , is_in_stock := false, quantity := 0
  , options := { wix_variant_id := "v1", choices := [], vendor_sku := none }
  , track_quantity := false, quantity_adv := 0 }

/-! ## Claim-side definitions and concrete inputs -/

/-- The list-level core of `pyStrip`. -/
def stripL (l : List Char) : List Char :=
  List.rdropWhile Char.isWhitespace (l.dropWhile Char.isWhitespace)

/-- The ordered list of SKU extractors `normalize_variant` actually consults
(spec §9 asks for "an explicit ordered list of extractor functions"): the
variant's direct `sku` field, the nested `variant.sku` field, the structured
`sku.value` probe, the `stockKeepingUnit` field and the `skuData.sku` field. -/
def skuExtractors : List (Dict → PVal) :=
  [ fun v => dget v "sku"
  , fun v => PVal.atom (dgetA (asFields (dget v "variant")) "sku")
  , fun v =>
      match dget v "sku" with
      | .pdict d => PVal.atom (dgetA d "value")
      | _ => PVal.atom .anone
  , fun v => dget v "stockKeepingUnit"
  , fun v => PVal.atom (dgetA (asFields (dget v "skuData")) "sku") ]

/-- The seven-source SKU resolution chain the claim (and `debug_wix_variants`)
describes: the five above followed by the vendor SKU and the item number. -/
def skuSevenSources (v : Dict) : List PVal :=
  skuExtractors.map (fun f => f v) ++ [dget v "vendorSku", dget v "itemNumber"]

def cexParent4 : Dict := [("id", .atom (.astr "p1"))]

def cexVariant4 : Dict := [("id", .atom (.astr "v1")), ("vendorSku", .atom (.astr "VSK"))]

def wParent4 : Dict := [("id", .atom (.astr "p1"))]

def wVariant4 : Dict := [("id", .atom (.astr "v1")), ("sku", .atom (.astr " AB "))]

/-- Price resolution as `normalize_variant` implements it: a *present and
truthy* variant `priceData.price` wins; a present-but-falsy one (`None`, `0`,
`""`) collapses to `0`; only when the variant has no `price` key at all does
the parent's (truthy) base price apply; every branch coerces with
`float(x)`-semantics and any conversion failure yields `0`.  No branch clamps
to non-negative. -/
def priceSpec (parent variant : Dict) : ℚ :=
  match (asFields (dget variant "priceData")).find? (fun kv => kv.1 == "price") with
  | some kv => if kv.2.truthy then (pyFloatA kv.2).getD 0 else 0
  | none =>
      let pp := dgetA (asFields (dget parent "priceData")) "price"
      if pp.truthy then (pyFloatA pp).getD 0 else 0

def cexParent7 : Dict :=
  [("id", .atom (.astr "p1")), ("priceData", .pdict [("price", .anum 10)])]

def cexVariant7 : Dict :=
  [("id", .atom (.astr "v1")), ("priceData", .pdict [("price", .anum (-5))])]

def cexVariant7b : Dict :=
  [("id", .atom (.astr "v1")), ("priceData", .pdict [("price", .anone)])]

/-! ## Properties of `pyStrip` -/


theorem pyStrip_eq_stripL (s : String) : pyStrip s = String.mk (stripL s.toList) := rfl

theorem dropWhile_stripL (l : List Char) :
    (stripL l).dropWhile Char.isWhitespace = stripL l := by
  rw [List.dropWhile_eq_self_iff]
  intro hl
  have hpre : stripL l <+: l.dropWhile Char.isWhitespace := List.rdropWhile_prefix _ _
  have hlen : 0 < (l.dropWhile Char.isWhitespace).length :=
    lt_of_lt_of_le hl hpre.length_le
  have hhead := List.dropWhile_get_zero_not Char.isWhitespace l hlen
  have : (l.dropWhile Char.isWhitespace).get ⟨0, hlen⟩ = (stripL l).get ⟨0, hl⟩ := by
    simpa using (hpre.getElem hl).symm
  rwa [this] at hhead

theorem stripL_idem (l : List Char) : stripL (stripL l) = stripL l := by
  show List.rdropWhile Char.isWhitespace ((stripL l).dropWhile Char.isWhitespace) = stripL l
  rw [dropWhile_stripL l]
  show List.rdropWhile Char.isWhitespace
      (List.rdropWhile Char.isWhitespace (l.dropWhile Char.isWhitespace)) = _
  exact List.rdropWhile_idempotent _ _

theorem pyStrip_idem (s : String) : pyStrip (pyStrip s) = pyStrip s :=
  congrArg String.mk (stripL_idem s.toList)

theorem stripL_parts {l : List Char} (h : stripL l = l) :
    l.dropWhile Char.isWhitespace = l ∧
    List.rdropWhile Char.isWhitespace l = l := by
  have hsuf : l.dropWhile Char.isWhitespace <:+ l := List.dropWhile_suffix _
  have hpre : stripL l <+: l.dropWhile Char.isWhitespace := List.rdropWhile_prefix _ _
  have hlen : (l.dropWhile Char.isWhitespace).length = l.length :=
    le_antisymm hsuf.length_le (by
      have := hpre.length_le
      rw [h] at this
      exact this)
  have hdrop : l.dropWhile Char.isWhitespace = l := hsuf.eq_of_length hlen
  refine ⟨hdrop, ?_⟩
  have := h
  unfold stripL at this
  rwa [hdrop] at this

theorem dropWhile_append_cons {a b : List Char} {c : Char}
    (hc : Char.isWhitespace c = false)
    (ha : a.dropWhile Char.isWhitespace = a) :
    (a ++ c :: b).dropWhile Char.isWhitespace = a ++ c :: b := by
  cases a with
  | nil => simp [List.dropWhile_cons, hc]
  | cons x xs =>
      rw [List.dropWhile_cons] at ha
      by_cases hx : Char.isWhitespace x
      · rw [if_pos hx] at ha
        have := congrArg List.length ha
        have hle : (xs.dropWhile Char.isWhitespace).length ≤ xs.length :=
          (List.dropWhile_suffix (p := Char.isWhitespace) (l := xs)).length_le
        simp at this
        omega
      · simp only [List.cons_append, List.dropWhile_cons]
        rw [if_neg hx]

theorem rdropWhile_eq_iff_reverse {l : List Char} :
    List.rdropWhile Char.isWhitespace l = l ↔
      l.reverse.dropWhile Char.isWhitespace = l.reverse := by
  unfold List.rdropWhile
  constructor
  · intro h
    have := congrArg List.reverse h
    rwa [List.reverse_reverse] at this
  · intro h
    rw [h, List.reverse_reverse]

theorem stripL_append_colon {a b : List Char}
    (ha : stripL a = a) (hb : stripL b = b) :
    stripL (a ++ ':' :: b) = a ++ ':' :: b := by
  have hpa := stripL_parts ha
  have hpb := stripL_parts hb
  have hc : Char.isWhitespace ':' = false := by decide
  have hdrop : (a ++ ':' :: b).dropWhile Char.isWhitespace = a ++ ':' :: b :=
    dropWhile_append_cons hc hpa.1
  have hrev : (a ++ ':' :: b).reverse = b.reverse ++ ':' :: a.reverse := by
    simp [List.reverse_append]
  have hbrev : b.reverse.dropWhile Char.isWhitespace = b.reverse :=
    rdropWhile_eq_iff_reverse.mp hpb.2
  have hrdrop : List.rdropWhile Char.isWhitespace (a ++ ':' :: b) = a ++ ':' :: b := by
    rw [rdropWhile_eq_iff_reverse, hrev]
    exact dropWhile_append_cons hc hbrev
  unfold stripL
  rw [hdrop, hrdrop]

theorem toList_append_colon (a b : String) :
    (a ++ ":" ++ b).toList = a.toList ++ ':' :: b.toList := by
  show (a ++ ":" ++ b).data = a.data ++ ':' :: b.data
  simp [String.data_append]

theorem pyStrip_append_colon {a b : String}
    (ha : pyStrip a = a) (hb : pyStrip b = b) :
    pyStrip (a ++ ":" ++ b) = a ++ ":" ++ b := by
  have ha' : stripL a.toList = a.toList := congrArg String.data ha
  have hb' : stripL b.toList = b.toList := congrArg String.data hb
  have : stripL (a ++ ":" ++ b).toList = (a ++ ":" ++ b).toList := by
    rw [toList_append_colon]
    exact stripL_append_colon ha' hb'
  calc pyStrip (a ++ ":" ++ b) = String.mk (stripL (a ++ ":" ++ b).toList) := rfl
    _ = String.mk (a ++ ":" ++ b).toList := by rw [this]
    _ = a ++ ":" ++ b := rfl

theorem append_colon_ne_empty (a b : String) : a ++ ":" ++ b ≠ "" := by
  intro h
  have h2 : (a ++ ":" ++ b).toList = "".toList := congrArg String.toList h
  rw [toList_append_colon] at h2
  simp at h2

/-! ## Well-formedness of normalized drafts -/

theorem strippedOrNone_wf {s t : String} (h : strippedOrNone s = some t) :
    pyStrip t = t ∧ t ≠ "" := by
  unfold strippedOrNone at h
  by_cases he : pyStrip s == ""
  · simp [he] at h
  · simp only [he, Bool.false_eq_true, if_false] at h
    cases h
    exact ⟨pyStrip_idem s, by simpa using he⟩

theorem cleanStr_wf {v : PVal} {t : String} (h : cleanStr v = some t) :
    pyStrip t = t ∧ t ≠ "" := by
  cases v with
  | atom a =>
      cases a with
      | anone => simp [cleanStr, cleanStrA] at h
      | astr s => exact strippedOrNone_wf h
      | anum q => exact strippedOrNone_wf h
      | abool b => exact strippedOrNone_wf h
  | pdict d => exact strippedOrNone_wf h

theorem firstNonEmptyStr_wf {l : List PVal} {t : String}
    (h : firstNonEmptyStr l = some t) : pyStrip t = t ∧ t ≠ "" := by
  induction l with
  | nil => simp [firstNonEmptyStr] at h
  | cons v rest ih =>
      unfold firstNonEmptyStr at h
      cases hc : cleanStr v with
      | some s => rw [hc] at h; cases h; exact cleanStr_wf hc
      | none => rw [hc] at h; exact ih h

theorem stripL_ne_nil_of_head {c : Char} {cs : List Char}
    (hc : Char.isWhitespace c = false) : stripL (c :: cs) ≠ [] := by
  unfold stripL
  rw [List.dropWhile_cons]
  simp only [hc, Bool.false_eq_true, if_false]
  rw [Ne, List.rdropWhile_eq_nil_iff]
  intro hall
  have := hall c (by simp)
  rw [hc] at this
  exact Bool.noConfusion this

theorem cleanStr_pdict_ne_none (d1 : List (String × PAtom)) :
    cleanStr (PVal.pdict d1) ≠ none := by
  show strippedOrNone (PVal.pyStr (PVal.pdict d1)) ≠ none
  unfold strippedOrNone
  have hlist : (PVal.pyStr (PVal.pdict d1)).toList = '{' ::
      ((String.intercalate ", "
        (d1.map (fun kv => pyQuote ++ kv.1 ++ pyQuote ++ ": " ++ kv.2.pyRepr))).toList
        ++ ['}']) := by
    show (("\x7b" ++ _) ++ "\x7d").data = _
    simp [String.data_append, pyQuote]
  have hne : pyStrip (PVal.pyStr (PVal.pdict d1)) ≠ "" := by
    intro h
    have h2 : stripL (PVal.pyStr (PVal.pdict d1)).toList = [] := congrArg String.data h
    rw [hlist] at h2
    exact stripL_ne_nil_of_head (by decide) h2
  simp only [pyStrip_eq_stripL] at *
  intro hcontra
  by_cases hb : String.mk (stripL (PVal.pyStr (PVal.pdict d1)).toList) == ""
  · exact hne (by simpa using hb)
  · simp only [hb, Bool.false_eq_true, if_false] at hcontra
    exact Option.noConfusion hcontra

/-! ## Claim C4: SKU resolution order -/


/-- **C4, counterexample.**  The claim says the SKU is the first non-empty of
seven sources, the vendor SKU being the sixth, with the synthetic fallback used
only if all seven are empty.  On a variant whose only non-empty SKU source is
`vendorSku = "VSK"` the claimed chain yields `"VSK"`, but `normalize_variant`
ignores the vendor SKU (and the item number) and synthesizes `"p1:v1"`. -/
theorem sku_resolution_counterexample :
    (firstNonEmptyStr (skuSevenSources cexVariant4)).getD "p1:v1" = "VSK" ∧
    (normalize_variant cexParent4 cexVariant4).map Draft.sku = some "p1:v1" ∧
    ("VSK" : String) ≠ "p1:v1" := by
  exact ⟨rfl, rfl, by decide⟩

/-- **C4, amended.**  `normalize_variant` resolves the SKU as the first
non-empty value of the *five*-entry extractor chain — direct `sku` field,
nested `variant.sku`, structured `sku.value`, `stockKeepingUnit`,
`skuData.sku` — and uses the synthetic `"<parentId>:<variantId>"` fallback
only when all five are empty; the vendor SKU and the item number are never
consulted.  (A dict-valued `sku` field is already non-empty at the first
position via `str()`, so the structured `sku.value` probe can never win.) -/
theorem sku_resolution_order (parent variant : Dict) (d : Draft)
    (h : normalize_variant parent variant = some d) :
    d.sku = (firstNonEmptyStr (skuExtractors.map (fun f => f variant))).getD
      (pyStrip (pyOr (dget parent "id") (dget parent "_id")).pyStr ++ ":" ++
       pyStrip (pyOr (pyOr (dget variant "id") (dget variant "_id"))
         (dget variant "variantId")).pyStr) := by
  simp only [normalize_variant] at h
  split at h
  · injection h with h
    subst h
    simp only [skuExtractors, List.map]
    cases hval : firstNonEmptyStr
        [ dget variant "sku"
        , PVal.atom (dgetA (asFields (dget variant "variant")) "sku")
        , (match dget variant "sku" with
           | .pdict d => PVal.atom (dgetA d "value")
           | _ => PVal.atom .anone)
        , dget variant "stockKeepingUnit"
        , PVal.atom (dgetA (asFields (dget variant "skuData")) "sku") ] with
    | some s => simp [hval]
    | none => simp [hval]
  · exact Option.noConfusion h


theorem sku_resolution_order_witness :
    (normalize_variant wParent4 wVariant4).map Draft.sku =
      some ((firstNonEmptyStr (skuExtractors.map (fun f => f wVariant4))).getD
        (pyStrip (pyOr (dget wParent4 "id") (dget wParent4 "_id")).pyStr ++ ":" ++
         pyStrip (pyOr (pyOr (dget wVariant4 "id") (dget wVariant4 "_id"))
           (dget wVariant4 "variantId")).pyStr)) := by
  cases hm : normalize_variant wParent4 wVariant4 with
  | none => exact absurd hm (by decide)
  | some d =>
      rw [Option.map_some']
      exact congrArg some (sku_resolution_order wParent4 wVariant4 d hm)

/-! ## Claim C5: synthetic fallback SKU -/

/-- **C5.**  If the parent's external id is the (whitespace-free, non-empty)
string `P`, the variant's external id is the string `V`, and every SKU source
field — the five the normalizer consults plus the vendor SKU and item number —
cleans to empty, then the normalized draft's SKU is exactly `P ++ ":" ++ V`.
Determinism across runs is inherent: `normalize_variant` is a pure function of
`(parent, variant)`, so equal inputs always produce this same SKU. -/
theorem fallback_sku_deterministic (parent variant : Dict) (P V : String)
    (hP : dget parent "id" = .atom (.astr P)) (hPne : P ≠ "") (hPs : pyStrip P = P)
    (hV : dget variant "id" = .atom (.astr V)) (hVne : V ≠ "") (hVs : pyStrip V = V)
    (h1 : cleanStr (dget variant "sku") = none)
    (h2 : cleanStrA (dgetA (asFields (dget variant "variant")) "sku") = none)
    (h3 : cleanStr (dget variant "stockKeepingUnit") = none)
    (h4 : cleanStrA (dgetA (asFields (dget variant "skuData")) "sku") = none)
    (_h5 : cleanStr (dget variant "vendorSku") = none)
    (_h6 : cleanStr (dget variant "itemNumber") = none) :
    (normalize_variant parent variant).map Draft.sku = some (P ++ ":" ++ V) := by
  have hsku3 : (match dget variant "sku" with
      | PVal.pdict d => PVal.atom (dgetA d "value")
      | _ => PVal.atom PAtom.anone) = PVal.atom PAtom.anone := by
    cases hdv : dget variant "sku" with
    | atom a => rfl
    | pdict d1 => exact absurd (hdv ▸ h1) (cleanStr_pdict_ne_none d1)
  have hfirst : firstNonEmptyStr
      [ dget variant "sku"
      , PVal.atom (dgetA (asFields (dget variant "variant")) "sku")
      , (match dget variant "sku" with
         | .pdict d => PVal.atom (dgetA d "value")
         | _ => PVal.atom .anone)
      , dget variant "stockKeepingUnit"
      , PVal.atom (dgetA (asFields (dget variant "skuData")) "sku") ] = none := by
    simp only [firstNonEmptyStr, h1, h3, hsku3]
    simp only [show cleanStr (PVal.atom (dgetA (asFields (dget variant "variant")) "sku")) =
        none from h2]
    simp only [show cleanStr (PVal.atom (dgetA (asFields (dget variant "skuData")) "sku")) =
        none from h4]
    rfl
  simp only [normalize_variant, hP, hV]
  have htr : (pyOr (PVal.atom (PAtom.astr P)) (dget parent "_id")).truthy = true := by
    simp [pyOr, PVal.truthy, PAtom.truthy, hPne]
  have htrV : (pyOr (pyOr (PVal.atom (PAtom.astr V)) (dget variant "_id"))
      (dget variant "variantId")).truthy = true := by
    simp [pyOr, PVal.truthy, PAtom.truthy, hVne]
  have hPor : pyOr (PVal.atom (PAtom.astr P)) (dget parent "_id") =
      PVal.atom (PAtom.astr P) := by
    simp [pyOr, PVal.truthy, PAtom.truthy, hPne]
  have hVor : pyOr (pyOr (PVal.atom (PAtom.astr V)) (dget variant "_id"))
      (dget variant "variantId") = PVal.atom (PAtom.astr V) := by
    simp [pyOr, PVal.truthy, PAtom.truthy, hVne]
  rw [hPor, hVor]
  simp only [PVal.truthy, PAtom.truthy]
  rw [if_pos (by simp [hPne, hVne])]
  rw [hfirst]
  simp only [Option.map_some']
  show some (pyStrip P ++ ":" ++ pyStrip V) = some (P ++ ":" ++ V)
  rw [hPs, hVs]

theorem fallback_sku_deterministic_witness :
    (normalize_variant [("id", .atom (.astr "P7"))] [("id", .atom (.astr "V9"))]).map
      Draft.sku = some ("P7" ++ ":" ++ "V9") :=
  fallback_sku_deterministic [("id", .atom (.astr "P7"))] [("id", .atom (.astr "V9"))]
    "P7" "V9" rfl (by decide) (by decide) rfl (by decide) (by decide)
    rfl rfl rfl rfl rfl rfl

/-! ## Claim C7: price resolution -/


theorem price_chain_eq (parent variant : Dict) :
    (pyFloatA (pyOrA (pyOrA (dgetDA (asFields (dget variant "priceData")) "price"
        (pyOrA (dgetA (asFields (dget parent "priceData")) "price") (.anum 0))) (.anum 0))
      (.anum 0))).getD 0 = priceSpec parent variant := by
  have hz : (PAtom.anum 0).truthy = false := by simp [PAtom.truthy]
  unfold priceSpec dgetDA
  cases hf : (asFields (dget variant "priceData")).find? (fun kv => kv.1 == "price") with
  | some kv =>
      by_cases ht : kv.2.truthy
      · simp only [pyOrA, ht, if_true]
      · rw [Bool.not_eq_true] at ht
        simp only [pyOrA, ht, hz, Bool.false_eq_true, if_false, pyFloatA, Option.getD_some]
  | none =>
      by_cases ht : (dgetA (asFields (dget parent "priceData")) "price").truthy
      · simp only [pyOrA, ht, if_true]
      · rw [Bool.not_eq_true] at ht
        simp only [pyOrA, ht, hz, Bool.false_eq_true, if_false, pyFloatA, Option.getD_some]


/-- **C7, counterexample.**  The claim says the price is coerced to a
*non-negative* float and that a present-but-empty override falls back to the
parent's base price.  Both fail on the code: a variant override of `-5` is
propagated as `-5` (negative), and a variant whose `priceData.price` is
present but `None` yields `0.0` instead of the parent's base price `10`. -/
theorem price_resolution_counterexample :
    (normalize_variant cexParent7 cexVariant7).map Draft.price = some (-5) ∧
    ((-5 : ℚ) < 0) ∧
    (normalize_variant cexParent7 cexVariant7b).map Draft.price = some 0 ∧
    ((0 : ℚ) ≠ 10) := by
  exact ⟨rfl, by norm_num, rfl, by norm_num⟩

/-- **C7, amended.**  The normalized draft's price is `priceSpec`: the
variant's `priceData.price` when present and truthy, `0.0` when present but
falsy, else the parent's truthy base price or `0.0`; coercion failures yield
`0.0`; the computation is total (never raises) but the result is *not* clamped
— a negative override passes through. -/
theorem price_resolution (parent variant : Dict) (d : Draft)
    (h : normalize_variant parent variant = some d) :
    d.price = priceSpec parent variant := by
  simp only [normalize_variant] at h
  split at h
  · injection h with h
    subst h
    exact price_chain_eq parent variant
  · exact Option.noConfusion h

theorem price_resolution_witness :
    (normalize_variant cexParent7 cexVariant7).map Draft.price =
      some (priceSpec cexParent7 cexVariant7) := by
  cases hm : normalize_variant cexParent7 cexVariant7 with
  | none => exact absurd hm (by decide)
  | some d =>
      rw [Option.map_some']
      exact congrArg some (price_resolution cexParent7 cexVariant7 d hm)

/-! ## Inventory upsert lemmas -/

theorem upsert_lookup (items : List InvRow) (s p : Nat) (q : Int) :
    lookupInvRow (upsert_inventory_entrepot items s p q) s p = some ⟨s, p, max q 0⟩ := by
  induction items with
  | nil => simp [upsert_inventory_entrepot, lookupInvRow, List.find?]
  | cons r rest ih =>
      unfold upsert_inventory_entrepot
      by_cases hm : (r.salon_id == s && r.product_id == p) = true
      · rw [if_pos hm]
        have h1 : r.salon_id = s := eq_of_beq ((Bool.and_eq_true _ _).mp hm).1
        have h2 : r.product_id = p := eq_of_beq ((Bool.and_eq_true _ _).mp hm).2
        unfold lookupInvRow
        rw [List.find?_cons_of_pos _ (by simp [h1, h2])]
        simp [h1, h2]
      · rw [if_neg hm]
        unfold lookupInvRow
        rw [List.find?_cons_of_neg _ (by simpa using hm)]
        exact ih

theorem upsert_absent (items : List InvRow) (s p : Nat) (q : Int)
    (h : lookupInvRow items s p = none) :
    upsert_inventory_entrepot items s p q = items ++ [⟨s, p, max q 0⟩] := by
  induction items with
  | nil => rfl
  | cons r rest ih =>
      unfold lookupInvRow at h
      rw [List.find?_cons] at h
      split at h
      · exact Option.noConfusion h
      · next hm =>
          unfold upsert_inventory_entrepot
          rw [if_neg (by simp [hm]), ih h]
          rfl

/-- The inventory items after the route's inventory block: exactly an upsert
when tracking is on, untouched otherwise (the vendor-SKU write touches only
`products`). -/
theorem inventoryStep_invItems (invMap : InvMap) (eid : Nat) (wpid : String)
    (d : Draft) (pid : Nat) (st : SyncState) (it : InvInfo)
    (hv : (d.options.wix_variant_id != "") = true)
    (hk : lookupInv invMap (invKey wpid d) = some it) :
    (inventoryStep invMap eid wpid d pid st).store.invItems =
      if it.track then upsert_inventory_entrepot st.store.invItems eid pid it.qty
      else st.store.invItems := by
  unfold inventoryStep
  rw [if_pos hv, hk]
  cases hvs : it.vendor_sku with
  | none =>
      by_cases htr : it.track <;> simp [hvs, htr]
  | some vs =>
      by_cases hemp : (vs == "") = true
      · by_cases htr : it.track <;> simp [hvs, hemp, htr]
      · by_cases htr : it.track <;> simp [hvs, hemp, htr]

/-! ## Claim C8: inventory reconciliation -/

/-- **C8.**  For a variant found in the prebuilt inventory map: when tracking
is enabled, the `(location, product)` inventory row's quantity becomes
`max 0 externalQuantity` — the row is appended if absent, and a negative
external quantity is never propagated; when tracking is disabled, the
inventory rows are left completely unchanged (no write). -/
theorem inventory_reconcile_tracked_clamped (st : SyncState) (invMap : InvMap)
    (eid : Nat) (wpid : String) (d : Draft) (pid : Nat) (it : InvInfo)
    (hv : d.options.wix_variant_id ≠ "")
    (hk : lookupInv invMap (invKey wpid d) = some it) :
    (it.track = false →
      (inventoryStep invMap eid wpid d pid st).store.invItems = st.store.invItems) ∧
    (it.track = true →
      lookupInvRow (inventoryStep invMap eid wpid d pid st).store.invItems eid pid =
        some ⟨eid, pid, max 0 it.qty⟩ ∧
      (lookupInvRow st.store.invItems eid pid = none →
        (inventoryStep invMap eid wpid d pid st).store.invItems =
          st.store.invItems ++ [⟨eid, pid, max 0 it.qty⟩])) := by
  have hv' : (d.options.wix_variant_id != "") = true := by simpa using hv
  have hbase := inventoryStep_invItems invMap eid wpid d pid st it hv' hk
  constructor
  · intro htr
    rwa [htr, if_neg (by simp)] at hbase
  · intro htr
    rw [htr, if_pos rfl] at hbase
    constructor
    · rw [hbase, max_comm]
      exact upsert_lookup st.store.invItems eid pid it.qty
    · intro habs
      rw [hbase, max_comm]
      exact upsert_absent st.store.invItems eid pid it.qty habs

theorem inventory_reconcile_tracked_clamped_witness :
    lookupInvRow (inventoryStep [("w:v", ⟨true, -3, none⟩)] 1 "w"
      { wix_id := "w", sku := "S", name := "n", description := .atom .anone
      , price := 0, handle := none, is_in_stock := false, quantity := 0
      , options := ⟨"v", [], none⟩, track_quantity := false, quantity_adv := 0 } 2
      { store := ⟨[], [], 0⟩ }).store.invItems 1 2 = some ⟨1, 2, max 0 (-3)⟩ :=
  ((inventory_reconcile_tracked_clamped { store := ⟨[], [], 0⟩ }
      [("w:v", ⟨true, -3, none⟩)] 1 "w"
      { wix_id := "w", sku := "S", name := "n", description := .atom .anone
      , price := 0, handle := none, is_in_stock := false, quantity := 0
      , options := ⟨"v", [], none⟩, track_quantity := false, quantity_adv := 0 } 2
      ⟨true, -3, none⟩ (by decide) rfl).2 rfl).1

/-! ## Claim C9: fetch-failure semantics -/

theorem resolveApply_inv_written (st : SyncState) (d : Draft) :
    (resolveApply st d).1.inv_written = st.inv_written := by
  simp only [resolveApply, applyUpdate, applyCreate]
  split <;> (try split) <;> rfl

theorem inventoryStep_empty (eid : Nat) (wpid : String) (d : Draft) (pid : Nat)
    (st : SyncState) : inventoryStep [] eid wpid d pid st = st := by
  simp only [inventoryStep, lookupInv, List.find?]
  split <;> rfl

theorem processVariant_empty_inv_written (eid : Nat) (wpid : String) (p v : Dict)
    (st : SyncState) :
    (processVariant [] eid wpid p v st).inv_written = st.inv_written := by
  unfold processVariant
  cases hn : normalize_variant p v with
  | none => rfl
  | some data =>
      by_cases hs : (pyStrip data.sku == "") = true
      · simp only [hs, if_true]
      · simp only [hs, Bool.false_eq_true, if_false]
        rw [inventoryStep_empty]
        exact resolveApply_inv_written _ data

theorem processParent_empty_inv_written (eid : Nat) (vt : VariantsTable) (p : Dict)
    (st : SyncState) :
    (processParent [] eid vt st p).inv_written = st.inv_written := by
  have key : ∀ (w : String) (vs : List Dict) (s : SyncState),
      (vs.foldl (fun s v => processVariant [] eid w p v s) s).inv_written =
        s.inv_written := by
    intro w vs
    induction vs with
    | nil => intro s; rfl
    | cons v rest ih =>
        intro s
        rw [List.foldl_cons, ih, processVariant_empty_inv_written]
  simp only [processParent]
  split
  · exact key _ _ _
  · rfl

theorem runSyncCore_empty_inv_written (eid : Nat) (vt : VariantsTable)
    (parents : List Dict) (db : Store) :
    (runSyncCore [] eid vt parents db).inv_written = 0 := by
  unfold runSyncCore
  have : ∀ (ps : List Dict) (s : SyncState),
      (ps.foldl (processParent [] eid vt) s).inv_written = s.inv_written := by
    intro ps
    induction ps with
    | nil => intro s; rfl
    | cons q rest ih =>
        intro s
        rw [List.foldl_cons, ih, processParent_empty_inv_written]
  rw [this]

/-- **C9.**  A failed inventory pre-fetch is non-fatal: the run still succeeds,
carries on with an empty inventory map — so zero inventory rows are written —
and records the truncated fetch error in the returned metadata.  A failed
parents fetch is fatal: the run aborts with that error. -/
theorem inventory_fetch_nonfatal_parents_fatal (vt : VariantsTable) (eid : Nat)
    (db : Store) :
    (∀ e ps, sync_wix_to_luxura (.error e) (.ok ps) vt eid db =
        .ok (mkSummary (runSyncCore [] eid vt ps db) (some (e.take 500)),
             (runSyncCore [] eid vt ps db).store) ∧
      (mkSummary (runSyncCore [] eid vt ps db)
          (some (e.take 500))).inventory_written_entrepot = 0 ∧
      (mkSummary (runSyncCore [] eid vt ps db) (some (e.take 500))).ok = true) ∧
    (∀ invF e, sync_wix_to_luxura invF (.error e) vt eid db = .error e) := by
  constructor
  · intro e ps
    refine ⟨rfl, ?_, rfl⟩
    show (runSyncCore [] eid vt ps db).inv_written = 0
    exact runSyncCore_empty_inv_written eid vt ps db
  · intro invF e
    cases invF <;> rfl

theorem inventory_fetch_nonfatal_parents_fatal_witness :
    (sync_wix_to_luxura (.error "boom") (.ok []) [] 1 ⟨[], [], 0⟩ =
        .ok (mkSummary (runSyncCore [] 1 [] [] ⟨[], [], 0⟩) (some ("boom".take 500)),
             (runSyncCore [] 1 [] [] ⟨[], [], 0⟩).store) ∧
      (mkSummary (runSyncCore [] 1 [] [] ⟨[], [], 0⟩)
          (some ("boom".take 500))).inventory_written_entrepot = 0 ∧
      (mkSummary (runSyncCore [] 1 [] [] ⟨[], [], 0⟩) (some ("boom".take 500))).ok = true) ∧
    sync_wix_to_luxura (.ok []) (.error "down") [] 1 ⟨[], [], 0⟩ = .error "down" :=
  ⟨(inventory_fetch_nonfatal_parents_fatal [] 1 ⟨[], [], 0⟩).1 "boom" [],
   (inventory_fetch_nonfatal_parents_fatal [] 1 ⟨[], [], 0⟩).2 (.ok []) "down"⟩

/-! ## Claim C1: dry-run equivalence -/

/-- **C1** (spec-modelled `RunSync`).  For the same external data a dry run
returns exactly the same summary — every counter, the whole pass being
computed identically — as a real run, and leaves the persisted store (Product
and InventoryItem rows) unchanged; the real run is exactly the embedded
`/wix/sync` route. -/
theorem dry_run_equivalence (invF : Except String InvMap)
    (pf : Except String (List Dict)) (vt : VariantsTable) (eid : Nat) (db : Store) :
    (RunSync true invF pf vt eid db).map Prod.fst =
      (RunSync false invF pf vt eid db).map Prod.fst ∧
    (∀ s st', RunSync true invF pf vt eid db = .ok (s, st') → st' = db) ∧
    RunSync false invF pf vt eid db = sync_wix_to_luxura invF pf vt eid db := by
  cases pf with
  | error e =>
      refine ⟨rfl, ?_, rfl⟩
      intro s st' h
      exact Except.noConfusion h
  | ok parents =>
      refine ⟨rfl, ?_, rfl⟩
      intro s st' h
      unfold RunSync at h
      injection h with h
      exact (congrArg Prod.snd h).symm

theorem dry_run_equivalence_witness :
    ((RunSync true (.ok []) (.ok []) [] 1 ⟨[], [], 5⟩).map Prod.fst =
      (RunSync false (.ok []) (.ok []) [] 1 ⟨[], [], 5⟩).map Prod.fst) ∧
    (⟨[], [], 5⟩ : Store) = ⟨[], [], 5⟩ :=
  ⟨(dry_run_equivalence (.ok []) (.ok []) [] 1 ⟨[], [], 5⟩).1,
   (dry_run_equivalence (.ok []) (.ok []) [] 1 ⟨[], [], 5⟩).2.1
     (mkSummary (runSyncCore [] 1 [] [] ⟨[], [], 5⟩) none) ⟨[], [], 5⟩ rfl⟩

/-! ## Claim C3: SKU-drift merge -/

theorem existingOf_identity {s : Store} {d : Draft} {A : ProductRow}
    (hw : pyStrip d.wix_id ≠ "") (hv : d.options.wix_variant_id ≠ "")
    (hA : findByIdentity s.products (pyStrip d.wix_id) d.options.wix_variant_id = some A) :
    existingOf s d = some A := by
  unfold existingOf
  rw [if_pos (by simp [hw, hv]), hA]

/-- **C3.**  In the drift case — the row matched by (external parent id,
external variant id) and the current owner of the draft's SKU are two distinct
rows — the SKU owner survives: the resolution returns the owner's id, every
InventoryItem row pointing at the identity-matched row is repointed to the
owner, the identity-matched row is deleted from the store, the draft's fields
are applied to the owner, and the pass counts one update and one merge (no
create). -/
theorem drift_merge_sku_owner_survives (st : SyncState) (d : Draft) (A B : ProductRow)
    (hw : pyStrip d.wix_id ≠ "") (hv : d.options.wix_variant_id ≠ "")
    (hA : findByIdentity st.store.products (pyStrip d.wix_id)
      d.options.wix_variant_id = some A)
    (hB : findBySku st.store.products (pyStrip d.sku) = some B)
    (hne : A.id ≠ B.id) :
    (resolveApply st d).2 = B.id ∧
    (resolveApply st d).1.store.invItems = st.store.invItems.map
      (fun r => if r.product_id == A.id then { r with product_id := B.id } else r) ∧
    (resolveApply st d).1.store.products =
      (st.store.products.filter (fun r => r.id ≠ A.id)).map
        (fun r => if r.id == B.id then draftRow r.id d else r) ∧
    (∀ r ∈ (resolveApply st d).1.store.products, r.id ≠ A.id) ∧
    (resolveApply st d).1.updated = st.updated + 1 ∧
    (resolveApply st d).1.merged = st.merged + 1 ∧
    (resolveApply st d).1.created = st.created := by
  have hex : existingOf st.store d = some A := existingOf_identity hw hv hA
  have hres : resolveApply st d =
      applyUpdate st d (mergeStore st.store A.id B.id) 1 B := by
    simp only [resolveApply, hex, hB]
    rw [if_pos (Ne.symm hne)]
  refine ⟨by rw [hres]; rfl, by rw [hres]; rfl, by rw [hres]; rfl, ?_,
    by rw [hres]; rfl, by rw [hres]; rfl, by rw [hres]; rfl⟩
  rw [hres]
  intro r hr
  simp only [applyUpdate, mergeStore, List.mem_map, List.mem_filter] at hr
  obtain ⟨r0, ⟨_, hr0⟩, rfl⟩ := hr
  have h0 : r0.id ≠ A.id := by simpa using hr0
  by_cases hb : (r0.id == B.id) = true
  · simpa [hb, draftRow] using h0
  · simpa [hb] using h0

theorem drift_merge_sku_owner_survives_witness :
    (resolveApply
      { store := ⟨[ ⟨10, "p1", "OLD", "a", .atom .anone, 1, none, false, 0, ⟨"v1", [], none⟩⟩
                  , ⟨11, "px", "ABC", "b", .atom .anone, 2, none, false, 0, ⟨"vx", [], none⟩⟩ ]
                , [⟨7, 10, 3⟩], 20⟩ }
      { wix_id := "p1", sku := "ABC", name := "n", description := .atom .anone
      , price := 0, handle := none, is_in_stock := false, quantity := 0
      , options := ⟨"v1", [], none⟩, track_quantity := false, quantity_adv := 0 }).2 = 11 :=
  (drift_merge_sku_owner_survives
    { store := ⟨[ ⟨10, "p1", "OLD", "a", .atom .anone, 1, none, false, 0, ⟨"v1", [], none⟩⟩
                , ⟨11, "px", "ABC", "b", .atom .anone, 2, none, false, 0, ⟨"vx", [], none⟩⟩ ]
              , [⟨7, 10, 3⟩], 20⟩ }
    { wix_id := "p1", sku := "ABC", name := "n", description := .atom .anone
    , price := 0, handle := none, is_in_stock := false, quantity := 0
    , options := ⟨"v1", [], none⟩, track_quantity := false, quantity_adv := 0 }
    ⟨10, "p1", "OLD", "a", .atom .anone, 1, none, false, 0, ⟨"v1", [], none⟩⟩
    ⟨11, "px", "ABC", "b", .atom .anone, 2, none, false, 0, ⟨"vx", [], none⟩⟩
    (by decide) (by decide) rfl rfl (by decide)).1

/-! ## Claim C10: counter partition -/

theorem resolveApply_counts (st : SyncState) (d : Draft) :
    (resolveApply st d).1.variants_seen = st.variants_seen ∧
    (resolveApply st d).1.skipped_no_sku = st.skipped_no_sku ∧
    (resolveApply st d).1.created + (resolveApply st d).1.updated
      = st.created + st.updated + 1 ∧
    st.updated ≤ (resolveApply st d).1.updated ∧
    (resolveApply st d).1.merged + st.updated
      ≤ st.merged + (resolveApply st d).1.updated := by
  unfold resolveApply
  split <;> (try split) <;> simp only [applyUpdate, applyCreate]
  all_goals exact ⟨by trivial, by trivial, by omega, by omega, by omega⟩

theorem inventoryStep_counters (invMap : InvMap) (eid : Nat) (wpid : String)
    (d : Draft) (pid : Nat) (st : SyncState) :
    (inventoryStep invMap eid wpid d pid st).variants_seen = st.variants_seen ∧
    (inventoryStep invMap eid wpid d pid st).created = st.created ∧
    (inventoryStep invMap eid wpid d pid st).updated = st.updated ∧
    (inventoryStep invMap eid wpid d pid st).skipped_no_sku = st.skipped_no_sku ∧
    (inventoryStep invMap eid wpid d pid st).merged = st.merged ∧
    (inventoryStep invMap eid wpid d pid st).parents_processed = st.parents_processed := by
  simp only [inventoryStep]
  split <;> (try split) <;> (try split) <;> (try split) <;> (try split) <;>
    exact ⟨rfl, rfl, rfl, rfl, rfl, rfl⟩

theorem processVariant_counts (invMap : InvMap) (eid : Nat) (wpid : String)
    (p v : Dict) (st : SyncState) :
    (processVariant invMap eid wpid p v st).variants_seen = st.variants_seen + 1 ∧
    (processVariant invMap eid wpid p v st).created +
      (processVariant invMap eid wpid p v st).updated +
      (processVariant invMap eid wpid p v st).skipped_no_sku
      = st.created + st.updated + st.skipped_no_sku + 1 ∧
    st.updated ≤ (processVariant invMap eid wpid p v st).updated ∧
    (processVariant invMap eid wpid p v st).merged + st.updated
      ≤ st.merged + (processVariant invMap eid wpid p v st).updated := by
  unfold processVariant
  cases hn : normalize_variant p v with
  | none => dsimp only; exact ⟨by trivial, by omega, by omega, by omega⟩
  | some data =>
      dsimp only
      by_cases hs : (pyStrip data.sku == "") = true
      · simp only [hs, if_true]
        exact ⟨by trivial, by omega, by omega, by omega⟩
      · simp only [hs, Bool.false_eq_true, if_false]
        have hra := resolveApply_counts { st with variants_seen := st.variants_seen + 1 } data
        have his := inventoryStep_counters invMap eid wpid data
          (resolveApply { st with variants_seen := st.variants_seen + 1 } data).2
          (resolveApply { st with variants_seen := st.variants_seen + 1 } data).1
        simp only [SyncState.mk.injEq] at *
        obtain ⟨ha1, ha2, ha3, ha4, ha5⟩ := hra
        obtain ⟨hb1, hb2, hb3, hb4, hb5, hb6⟩ := his
        refine ⟨?_, ?_, ?_, ?_⟩ <;> (simp_all; try omega)

theorem counterInv_preserved_variant (invMap : InvMap) (eid : Nat) (wpid : String)
    (p v : Dict) (st : SyncState) (h : CounterInv st) :
    CounterInv (processVariant invMap eid wpid p v st) := by
  obtain ⟨h1, h2⟩ := h
  obtain ⟨c1, c2, c3, c4⟩ := processVariant_counts invMap eid wpid p v st
  exact ⟨by omega, by omega⟩

theorem counterInv_preserved_parent (invMap : InvMap) (eid : Nat) (vt : VariantsTable)
    (st : SyncState) (p : Dict) (h : CounterInv st) :
    CounterInv (processParent invMap eid vt st p) := by
  have key : ∀ (w : String) (vs : List Dict) (s : SyncState), CounterInv s →
      CounterInv (vs.foldl (fun s v => processVariant invMap eid w p v s) s) := by
    intro w vs
    induction vs with
    | nil => intro s hs; exact hs
    | cons v rest ih =>
        intro s hs
        rw [List.foldl_cons]
        exact ih _ (counterInv_preserved_variant invMap eid w p v s hs)
  simp only [processParent]
  split
  · exact key _ _ _ ⟨h.1, h.2⟩
  · exact h

theorem runSyncCore_counterInv (invMap : InvMap) (eid : Nat) (vt : VariantsTable)
    (parents : List Dict) (db : Store) :
    CounterInv (runSyncCore invMap eid vt parents db) := by
  unfold runSyncCore
  have key : ∀ (ps : List Dict) (s : SyncState), CounterInv s →
      CounterInv (ps.foldl (processParent invMap eid vt) s) := by
    intro ps
    induction ps with
    | nil => intro s hs; exact hs
    | cons q rest ih =>
        intro s hs
        rw [List.foldl_cons]
        exact ih _ (counterInv_preserved_parent invMap eid vt s q hs)
  exact key parents { store := db } ⟨rfl, le_refl 0⟩

/-- **C10.**  A success summary of the sync endpoint always satisfies
`variants_seen = created + updated + skipped_no_sku` — every variant seen falls
in exactly one bucket — and the (ghost) count of merge-block executions never
exceeds `updated`: a merged variant is counted under `updated`, there being no
separate merged bucket in the summary. -/
theorem counters_partition (invF : Except String InvMap)
    (pf : Except String (List Dict)) (vt : VariantsTable) (eid : Nat) (db : Store)
    (s : Summary) (st' : Store)
    (h : sync_wix_to_luxura invF pf vt eid db = .ok (s, st')) :
    s.variants_seen = s.created + s.updated + s.skipped_no_sku ∧
    ∀ (m : InvMap) (ps : List Dict),
      (runSyncCore m eid vt ps db).merged ≤ (runSyncCore m eid vt ps db).updated := by
  refine ⟨?_, fun m ps => (runSyncCore_counterInv m eid vt ps db).2⟩
  cases pf with
  | error e =>
      cases invF <;> exact Except.noConfusion h
  | ok parents =>
      cases invF with
      | ok m0 =>
          have hs : s = mkSummary (runSyncCore m0 eid vt parents db) none := by
            simp only [sync_wix_to_luxura] at h
            injection h with h
            exact (congrArg Prod.fst h).symm
          rw [hs]
          exact (runSyncCore_counterInv m0 eid vt parents db).1
      | error e =>
          have hs : s = mkSummary (runSyncCore [] eid vt parents db)
              (some (e.take 500)) := by
            simp only [sync_wix_to_luxura] at h
            injection h with h
            exact (congrArg Prod.fst h).symm
          rw [hs]
          exact (runSyncCore_counterInv [] eid vt parents db).1

theorem counters_partition_witness :
    (mkSummary (runSyncCore [] 1 [] [] ⟨[], [], 0⟩) none).variants_seen =
      (mkSummary (runSyncCore [] 1 [] [] ⟨[], [], 0⟩) none).created +
      (mkSummary (runSyncCore [] 1 [] [] ⟨[], [], 0⟩) none).updated +
      (mkSummary (runSyncCore [] 1 [] [] ⟨[], [], 0⟩) none).skipped_no_sku ∧
    ∀ (m : InvMap) (ps : List Dict),
      (runSyncCore m 1 [] ps ⟨[], [], 0⟩).merged ≤
        (runSyncCore m 1 [] ps ⟨[], [], 0⟩).updated :=
  counters_partition (.ok []) (.ok []) [] 1 ⟨[], [], 0⟩
    (mkSummary (runSyncCore [] 1 [] [] ⟨[], [], 0⟩) none)
    (runSyncCore [] 1 [] [] ⟨[], [], 0⟩).store rfl

/-! ## Claim C2: SKU uniqueness preservation -/

/-- Well-formedness of every normalized draft: its SKU is already stripped and
non-empty, and its external ids are stripped. -/
theorem normalize_wf {parent variant : Dict} {d : Draft}
    (h : normalize_variant parent variant = some d) :
    pyStrip d.sku = d.sku ∧ d.sku ≠ "" ∧ pyStrip d.wix_id = d.wix_id ∧
    pyStrip d.options.wix_variant_id = d.options.wix_variant_id := by
  simp only [normalize_variant] at h
  split at h
  · injection h with h
    subst h
    refine ⟨?_, ?_, pyStrip_idem _, pyStrip_idem _⟩
    · show pyStrip (match firstNonEmptyStr _ with
        | some s => s
        | none => pyStrip _ ++ ":" ++ pyStrip _) = _
      cases hval : firstNonEmptyStr
          [ dget variant "sku"
          , PVal.atom (dgetA (asFields (dget variant "variant")) "sku")
          , (match dget variant "sku" with
             | .pdict d => PVal.atom (dgetA d "value")
             | _ => PVal.atom .anone)
          , dget variant "stockKeepingUnit"
          , PVal.atom (dgetA (asFields (dget variant "skuData")) "sku") ] with
      | some s => simp only [hval]; exact (firstNonEmptyStr_wf hval).1
      | none =>
          simp only [hval]
          exact pyStrip_append_colon (pyStrip_idem _) (pyStrip_idem _)
    · show (match firstNonEmptyStr _ with
        | some s => s
        | none => pyStrip _ ++ ":" ++ pyStrip _) ≠ ""
      cases hval : firstNonEmptyStr
          [ dget variant "sku"
          , PVal.atom (dgetA (asFields (dget variant "variant")) "sku")
          , (match dget variant "sku" with
             | .pdict d => PVal.atom (dgetA d "value")
             | _ => PVal.atom .anone)
          , dget variant "stockKeepingUnit"
          , PVal.atom (dgetA (asFields (dget variant "skuData")) "sku") ] with
      | some s => simp only [hval]; exact (firstNonEmptyStr_wf hval).2
      | none => simp only [hval]; exact append_colon_ne_empty _ _
  · exact Option.noConfusion h

theorem findBySku_none {ps : List ProductRow} {k : String}
    (h : findBySku ps k = none) : ∀ r ∈ ps, r.sku ≠ k := by
  intro r hr
  have := List.find?_eq_none.mp h r hr
  simpa using this

theorem findBySku_mem {ps : List ProductRow} {k : String} {r : ProductRow}
    (h : findBySku ps k = some r) : r ∈ ps ∧ r.sku = k :=
  ⟨List.mem_of_find?_eq_some h, by simpa using List.find?_some h⟩

theorem sku_owner_unique {ps : List ProductRow} {k : String} {r x : ProductRow}
    (hSku : ps.Pairwise (fun a b => a.sku ≠ b.sku))
    (hr : r ∈ ps) (hrk : r.sku = k) (hx : x ∈ ps) (hxk : x.sku = k) : x = r := by
  by_contra hne
  have hsym : Symmetric (fun a b : ProductRow => a.sku ≠ b.sku) :=
    fun a b hab => Ne.symm hab
  exact (hSku.forall hsym hx hr hne) (hxk.trans hrk.symm)

theorem existingOf_none {s : Store} {d : Draft} (h : existingOf s d = none) :
    findBySku s.products (pyStrip d.sku) = none := by
  simp only [existingOf] at h
  split at h
  · exact Option.noConfusion h
  · exact h

theorem skuUnique_update {ps : List ProductRow} {d : Draft} {tid : Nat}
    (hid : ps.Pairwise (fun a b => a.id ≠ b.id))
    (hsku : ps.Pairwise (fun a b => a.sku ≠ b.sku))
    (hown : ∀ r ∈ ps, r.sku = d.sku → r.id = tid) :
    (ps.map (fun r => if r.id == tid then draftRow r.id d else r)).Pairwise
      (fun a b => a.sku ≠ b.sku) := by
  rw [List.pairwise_map]
  refine (hid.and hsku).imp_of_mem ?_
  intro a b ha hb hab
  obtain ⟨hab1, hab2⟩ := hab
  by_cases h1 : (a.id == tid) = true <;> by_cases h2 : (b.id == tid) = true
  · exact absurd ((eq_of_beq h1).trans (eq_of_beq h2).symm) hab1
  · simp only [h1, if_true, h2, Bool.false_eq_true, if_false, draftRow]
    intro hc
    exact h2 (by rw [hown b hb hc.symm]; exact beq_self_eq_true tid)
  · simp only [h1, Bool.false_eq_true, if_false, h2, if_true, draftRow]
    intro hc
    exact h1 (by rw [hown a ha hc]; exact beq_self_eq_true tid)
  · simpa [h1, h2] using hab2

theorem idsOk_map_id_preserving {s : Store} (f : ProductRow → ProductRow)
    (hf : ∀ r, (f r).id = r.id) (h : IdsOk s) :
    IdsOk { s with products := s.products.map f } := by
  obtain ⟨h1, h2⟩ := h
  constructor
  · rw [List.pairwise_map]
    exact h1.imp (fun hne => by rw [hf, hf]; exact hne)
  · intro r hr
    obtain ⟨r0, hr0, rfl⟩ := List.mem_map.mp hr
    rw [hf]
    exact h2 r0 hr0

theorem skuUnique_map_sku_preserving {s : Store} (f : ProductRow → ProductRow)
    (hf : ∀ r, (f r).sku = r.sku) (h : SkuUnique s) :
    SkuUnique { s with products := s.products.map f } := by
  show (s.products.map f).Pairwise _
  rw [List.pairwise_map]
  exact h.imp (fun hne => by rw [hf, hf]; exact hne)

theorem idsOk_mergeStore {s : Store} {exId owId : Nat} (h : IdsOk s) :
    IdsOk (mergeStore s exId owId) := by
  obtain ⟨h1, h2⟩ := h
  refine ⟨List.Pairwise.sublist (List.filter_sublist _) h1, ?_⟩
  intro r hr
  exact h2 r (List.mem_of_mem_filter hr)

theorem skuUnique_mergeStore {s : Store} {exId owId : Nat} (h : SkuUnique s) :
    SkuUnique (mergeStore s exId owId) :=
  List.Pairwise.sublist (List.filter_sublist _) h

theorem applyUpdate_invariants (st : SyncState) (d : Draft) (store1 : Store)
    (mi : Nat) (ex : ProductRow)
    (hIds : IdsOk store1) (hSku : SkuUnique store1)
    (hown : ∀ r ∈ store1.products, r.sku = d.sku → r.id = ex.id) :
    IdsOk (applyUpdate st d store1 mi ex).1.store ∧
    SkuUnique (applyUpdate st d store1 mi ex).1.store := by
  constructor
  · exact idsOk_map_id_preserving _
      (fun r => by by_cases h : (r.id == ex.id) = true <;> simp [h, draftRow]) hIds
  · show (store1.products.map _).Pairwise _
    exact skuUnique_update hIds.1 hSku hown

theorem applyCreate_invariants (st : SyncState) (d : Draft)
    (hts : pyStrip d.sku = d.sku)
    (hIds : IdsOk st.store) (hSku : SkuUnique st.store)
    (hO : findBySku st.store.products (pyStrip d.sku) = none) :
    IdsOk (applyCreate st d).1.store ∧ SkuUnique (applyCreate st d).1.store := by
  obtain ⟨h1, h2⟩ := hIds
  constructor
  · constructor
    · show (st.store.products ++ [draftRow st.store.nextId d]).Pairwise _
      rw [List.pairwise_append]
      refine ⟨h1, by simp, ?_⟩
      intro a ha b hb
      rw [List.mem_singleton.mp hb]
      show a.id ≠ st.store.nextId
      exact Nat.ne_of_lt (h2 a ha)
    · intro r hr
      show r.id < st.store.nextId + 1
      rcases List.mem_append.mp hr with hl | hr1
      · exact Nat.lt_succ_of_lt (h2 r hl)
      · rw [List.mem_singleton.mp hr1]
        exact Nat.lt_succ_self _
  · show (st.store.products ++ [draftRow st.store.nextId d]).Pairwise _
    rw [List.pairwise_append]
    refine ⟨hSku, by simp, ?_⟩
    intro a ha b hb
    rw [List.mem_singleton.mp hb]
    show a.sku ≠ d.sku
    have := findBySku_none hO a ha
    rwa [hts] at this

theorem resolveApply_invariants (st : SyncState) (d : Draft)
    (hts : pyStrip d.sku = d.sku)
    (hIds : IdsOk st.store) (hSku : SkuUnique st.store) :
    IdsOk (resolveApply st d).1.store ∧ SkuUnique (resolveApply st d).1.store := by
  unfold resolveApply
  cases hE : existingOf st.store d with
  | none =>
      exact applyCreate_invariants st d hts hIds hSku (existingOf_none hE)
  | some ex =>
      cases hO : findBySku st.store.products (pyStrip d.sku) with
      | none =>
          refine applyUpdate_invariants st d st.store 0 ex hIds hSku ?_
          intro r hr hrk
          exact absurd (by rwa [hts]) (findBySku_none hO r hr)
      | some ow =>
          dsimp only
          by_cases hne : ow.id ≠ ex.id
          · rw [if_pos hne]
            have hmi : IdsOk (mergeStore st.store ex.id ow.id) := idsOk_mergeStore hIds
            have hms : SkuUnique (mergeStore st.store ex.id ow.id) :=
              skuUnique_mergeStore hSku
            refine applyUpdate_invariants st d _ 1 ow hmi hms ?_
            intro r hr hrk
            have hrm : r ∈ st.store.products := List.mem_of_mem_filter hr
            obtain ⟨how1, how2⟩ := findBySku_mem hO
            have : r = ow := sku_owner_unique hSku how1 how2 hrm (by rwa [hts])
            rw [this]
          · rw [if_neg hne]
            push_neg at hne
            refine applyUpdate_invariants st d st.store 0 ex hIds hSku ?_
            intro r hr hrk
            obtain ⟨how1, how2⟩ := findBySku_mem hO
            have : r = ow := sku_owner_unique hSku how1 how2 hr (by rwa [hts])
            rw [this, hne]

theorem inventoryStep_invariants (invMap : InvMap) (eid : Nat) (wpid : String)
    (d : Draft) (pid : Nat) (st : SyncState)
    (hIds : IdsOk st.store) (hSku : SkuUnique st.store) :
    IdsOk (inventoryStep invMap eid wpid d pid st).store ∧
    SkuUnique (inventoryStep invMap eid wpid d pid st).store := by
  have hvend : ∀ (vs : String),
      IdsOk { st.store with
        products := List.map (fun r =>
          if r.id == pid then
            { r with options := { d.options with vendor_sku := some vs } }
          else r) st.store.products } ∧
      SkuUnique { st.store with
        products := List.map (fun r =>
          if r.id == pid then
            { r with options := { d.options with vendor_sku := some vs } }
          else r) st.store.products } := by
    intro vs
    constructor
    · exact idsOk_map_id_preserving _
        (fun r => by by_cases h : (r.id == pid) = true <;> simp [h]) hIds
    · exact skuUnique_map_sku_preserving _
        (fun r => by by_cases h : (r.id == pid) = true <;> simp [h]) hSku
  simp only [inventoryStep]
  split <;> (try split) <;> (try split) <;> (try split) <;> (try split) <;>
    first
      | exact ⟨hIds, hSku⟩
      | exact ⟨(hvend _).1, (hvend _).2⟩

theorem processVariant_invariants (invMap : InvMap) (eid : Nat) (wpid : String)
    (p v : Dict) (st : SyncState)
    (hIds : IdsOk st.store) (hSku : SkuUnique st.store) :
    IdsOk (processVariant invMap eid wpid p v st).store ∧
    SkuUnique (processVariant invMap eid wpid p v st).store := by
  unfold processVariant
  cases hn : normalize_variant p v with
  | none => exact ⟨hIds, hSku⟩
  | some data =>
      dsimp only
      by_cases hs : (pyStrip data.sku == "") = true
      · simp only [hs, if_true]
        exact ⟨hIds, hSku⟩
      · simp only [hs, Bool.false_eq_true, if_false]
        have hwf := normalize_wf hn
        have h1 := resolveApply_invariants
          { st with variants_seen := st.variants_seen + 1 } data hwf.1 hIds hSku
        exact inventoryStep_invariants invMap eid wpid data _ _ h1.1 h1.2

theorem processParent_invariants (invMap : InvMap) (eid : Nat) (vt : VariantsTable)
    (st : SyncState) (p : Dict)
    (hIds : IdsOk st.store) (hSku : SkuUnique st.store) :
    IdsOk (processParent invMap eid vt st p).store ∧
    SkuUnique (processParent invMap eid vt st p).store := by
  have key : ∀ (w : String) (vs : List Dict) (s : SyncState),
      IdsOk s.store → SkuUnique s.store →
      IdsOk ((vs.foldl (fun s v => processVariant invMap eid w p v s) s).store) ∧
      SkuUnique ((vs.foldl (fun s v => processVariant invMap eid w p v s) s).store) := by
    intro w vs
    induction vs with
    | nil => intro s hs1 hs2; exact ⟨hs1, hs2⟩
    | cons v rest ih =>
        intro s hs1 hs2
        rw [List.foldl_cons]
        have := processVariant_invariants invMap eid w p v s hs1 hs2
        exact ih _ this.1 this.2
  simp only [processParent]
  split
  · exact key _ _ _ hIds hSku
  · exact ⟨hIds, hSku⟩

theorem runSyncCore_invariants (invMap : InvMap) (eid : Nat) (vt : VariantsTable)
    (parents : List Dict) (db : Store)
    (hIds : IdsOk db) (hSku : SkuUnique db) :
    IdsOk (runSyncCore invMap eid vt parents db).store ∧
    SkuUnique (runSyncCore invMap eid vt parents db).store := by
  unfold runSyncCore
  have key : ∀ (ps : List Dict) (s : SyncState),
      IdsOk s.store → SkuUnique s.store →
      IdsOk ((ps.foldl (processParent invMap eid vt) s).store) ∧
      SkuUnique ((ps.foldl (processParent invMap eid vt) s).store) := by
    intro ps
    induction ps with
    | nil => intro s hs1 hs2; exact ⟨hs1, hs2⟩
    | cons q rest ih =>
        intro s hs1 hs2
        rw [List.foldl_cons]
        have := processParent_invariants invMap eid vt s q hs1 hs2
        exact ih _ this.1 this.2
  exact key parents { store := db } hIds hSku

/-- **C2.**  A completed (committed) sync run preserves SKU uniqueness: if the
store's Product rows had pairwise distinct primary keys and pairwise distinct
SKUs before the run, then after every successful `/wix/sync` pass no two
Product rows share a SKU. -/
theorem sync_preserves_sku_uniqueness (invF : Except String InvMap)
    (pf : Except String (List Dict)) (vt : VariantsTable) (eid : Nat) (db : Store)
    (s : Summary) (st' : Store)
    (hIds : IdsOk db) (hSku : SkuUnique db)
    (h : sync_wix_to_luxura invF pf vt eid db = .ok (s, st')) :
    st'.products.Pairwise (fun a b => a.sku ≠ b.sku) := by
  cases pf with
  | error e => cases invF <;> exact Except.noConfusion h
  | ok parents =>
      cases invF with
      | ok m0 =>
          have hst : st' = (runSyncCore m0 eid vt parents db).store := by
            simp only [sync_wix_to_luxura] at h
            injection h with h
            exact (congrArg Prod.snd h).symm
          rw [hst]
          exact (runSyncCore_invariants m0 eid vt parents db hIds hSku).2
      | error e =>
          have hst : st' = (runSyncCore [] eid vt parents db).store := by
            simp only [sync_wix_to_luxura] at h
            injection h with h
            exact (congrArg Prod.snd h).symm
          rw [hst]
          exact (runSyncCore_invariants [] eid vt parents db hIds hSku).2

theorem sync_preserves_sku_uniqueness_witness :
    ((runSyncCore [] 1 [("p1", [[("id", .atom (.astr "v1")),
        ("sku", .atom (.astr "ABC"))]])] [[("id", .atom (.astr "p1"))]]
      ⟨[], [], 0⟩).store.products).Pairwise (fun a b => a.sku ≠ b.sku) :=
  sync_preserves_sku_uniqueness (.ok [])
    (.ok [[("id", .atom (.astr "p1"))]])
    [("p1", [[("id", .atom (.astr "v1")), ("sku", .atom (.astr "ABC"))]])] 1
    ⟨[], [], 0⟩ _ _ ⟨List.Pairwise.nil, by simp⟩ List.Pairwise.nil rfl

/-! ## Claim C6: helper lemmas -/

theorem map_pointwise_id {α} {l : List α} {f : α → α} (h : ∀ x ∈ l, f x = x) :
    l.map f = l := by
  induction l with
  | nil => rfl
  | cons a t ih =>
      rw [List.map_cons, h a (by simp), ih (fun x hx => h x (by simp [hx]))]

theorem find?_unique {α} {p : α → Bool} {l : List α} {a : α}
    (ha : a ∈ l) (hpa : p a = true) (huniq : ∀ x ∈ l, p x = true → x = a) :
    l.find? p = some a := by
  induction l with
  | nil => exact absurd ha (by simp)
  | cons b t ih =>
      by_cases hb : p b = true
      · rw [List.find?_cons_of_pos _ hb]
        rw [huniq b (by simp) hb]
      · rw [List.find?_cons_of_neg _ (by simp [hb])]
        rcases List.mem_cons.mp ha with rfl | hat
        · exact absurd hpa hb
        · exact ih hat (fun x hx hpx => huniq x (by simp [hx]) hpx)

theorem findByIdentity_none {ps : List ProductRow} {w vv : String}
    (h : findByIdentity ps w vv = none) :
    ∀ r ∈ ps, ¬(r.wix_id = w ∧ r.options.wix_variant_id = vv) := by
  intro r hr ⟨h1, h2⟩
  unfold findByIdentity at h
  have hrf : r ∈ ps.filter (fun x => x.wix_id == w) :=
    List.mem_filter.mpr ⟨hr, by simp [h1]⟩
  have := List.find?_eq_none.mp h r hrf
  simp [h2] at this

theorem findByIdentity_mem {ps : List ProductRow} {w vv : String} {A : ProductRow}
    (h : findByIdentity ps w vv = some A) :
    A ∈ ps ∧ A.wix_id = w ∧ A.options.wix_variant_id = vv := by
  unfold findByIdentity at h
  have hmem := List.mem_of_find?_eq_some h
  have hp := List.find?_some h
  have := List.mem_filter.mp hmem
  exact ⟨this.1, by simpa using this.2, by simpa using hp⟩

theorem findByIdentity_unique {ps : List ProductRow} {w vv : String} {r : ProductRow}
    (hI : ps.Pairwise (fun a b => rowIdent a ≠ rowIdent b))
    (hr : r ∈ ps) (hrw : r.wix_id = w) (hrv : r.options.wix_variant_id = vv) :
    findByIdentity ps w vv = some r := by
  unfold findByIdentity
  refine find?_unique (List.mem_filter.mpr ⟨hr, by simp [hrw]⟩) (by simp [hrv]) ?_
  intro x hx hpx
  have hxm := List.mem_filter.mp hx
  have hxw : x.wix_id = w := by simpa using hxm.2
  have hxv : x.options.wix_variant_id = vv := by simpa using hpx
  by_contra hne
  have hsym : Symmetric (fun a b : ProductRow => rowIdent a ≠ rowIdent b) :=
    fun a b hab => Ne.symm hab
  exact (hI.forall hsym hxm.1 hr hne)
    (by simp [rowIdent, hxw, hxv, hrw, hrv])

theorem findBySku_unique {ps : List ProductRow} {k : String} {r : ProductRow}
    (hS : ps.Pairwise (fun a b => a.sku ≠ b.sku))
    (hr : r ∈ ps) (hrk : r.sku = k) : findBySku ps k = some r := by
  unfold findBySku
  refine find?_unique hr (by simp [hrk]) ?_
  intro x hx hpx
  exact sku_owner_unique hS hr hrk hx (by simpa using hpx)

theorem existingOf_cases {s : Store} {d : Draft} {ex : ProductRow}
    (h : existingOf s d = some ex) :
    findByIdentity s.products (pyStrip d.wix_id) d.options.wix_variant_id = some ex ∨
    (findBySku s.products (pyStrip d.sku) = some ex) := by
  simp only [existingOf] at h
  split at h
  · next heq =>
      split at heq
      · left
        rw [heq]
        injection h with h
        rw [h]
      · exact Option.noConfusion heq
  · next heq => right; exact h

theorem existingOf_none_parts {s : Store} {d : Draft}
    (h : existingOf s d = none)
    (hguard : (pyStrip d.wix_id != "" && d.options.wix_variant_id != "") = true) :
    findByIdentity s.products (pyStrip d.wix_id) d.options.wix_variant_id = none ∧
    findBySku s.products (pyStrip d.sku) = none := by
  simp only [existingOf] at h
  split at h
  · next heq => exact Option.noConfusion h
  · next heq =>
      rw [if_pos hguard] at heq
      exact ⟨heq, h⟩

theorem rowIdent_draftRow (i : Nat) (d : Draft) :
    rowIdent (draftRow i d) = draftIdent d := rfl

theorem finalRow_id (invMap : InvMap) (key : String) (i : Nat) (d : Draft) :
    (finalRow invMap key i d).id = i := rfl

theorem finalRow_sku (invMap : InvMap) (key : String) (i : Nat) (d : Draft) :
    (finalRow invMap key i d).sku = d.sku := rfl

theorem finalRow_wvid (invMap : InvMap) (key : String) (i : Nat) (d : Draft) :
    rowIdent (finalRow invMap key i d) = draftIdent d := by
  show ((d.wix_id : String), (finalOptions invMap key d).wix_variant_id) = _
  unfold finalOptions
  split
  · split
    · split <;> rfl
    · rfl
  · rfl

theorem normalize_wix_id {p v : Dict} {d : Draft}
    (h : normalize_variant p v = some d) :
    d.wix_id = pyStrip (pyOr (dget p "id") (dget p "_id")).pyStr := by
  simp only [normalize_variant] at h
  split at h
  · injection h with h
    subst h
    rfl
  · exact Option.noConfusion h

theorem mem_ne_id {ps : List ProductRow} {a b : ProductRow}
    (hid : ps.Pairwise (fun x y => x.id ≠ y.id))
    (ha : a ∈ ps) (hb : b ∈ ps) (hne : a ≠ b) : a.id ≠ b.id :=
  hid.forall (fun _ _ hxy => Ne.symm hxy) ha hb hne

theorem lookupInvRow_map_repoint {items : List InvRow} {exId owId sid pId : Nat}
    (h1 : pId ≠ exId) (h2 : pId ≠ owId) :
    lookupInvRow (items.map
      (fun r => if r.product_id == exId then { r with product_id := owId } else r))
      sid pId = lookupInvRow items sid pId := by
  induction items with
  | nil => rfl
  | cons r rest ih =>
      unfold lookupInvRow at *
      rw [List.map_cons]
      by_cases hm : (r.product_id == exId) = true
      · rw [if_pos hm]
        have hL : (({ r with product_id := owId } : InvRow).salon_id == sid &&
            ({ r with product_id := owId } : InvRow).product_id == pId) = false := by
          simp [Ne.symm h2]
        have hR : (r.salon_id == sid && r.product_id == pId) = false := by
          simp [eq_of_beq hm, Ne.symm h1]
        simp only [List.find?_cons, hL, hR]
        exact ih
      · rw [if_neg hm]
        by_cases hp : (r.salon_id == sid && r.product_id == pId) = true
        · simp only [List.find?_cons, hp]
        · have hp' : (r.salon_id == sid && r.product_id == pId) = false := by
            simpa using hp
          simp only [List.find?_cons, hp']
          exact ih

theorem upsert_preserves_other {items : List InvRow} {s p sid pId : Nat} {q : Int}
    (h : pId ≠ p) :
    lookupInvRow (upsert_inventory_entrepot items s p q) sid pId =
      lookupInvRow items sid pId := by
  induction items with
  | nil =>
      unfold upsert_inventory_entrepot lookupInvRow
      rw [List.find?_cons_of_neg _ (by simp [Ne.symm h])]
  | cons r rest ih =>
      unfold upsert_inventory_entrepot
      by_cases hm : (r.salon_id == s && r.product_id == p) = true
      · rw [if_pos hm]
        unfold lookupInvRow
        have hpr : r.product_id = p := eq_of_beq ((Bool.and_eq_true _ _).mp hm).2
        have hL : (({ r with quantity := max q 0 } : InvRow).salon_id == sid &&
            ({ r with quantity := max q 0 } : InvRow).product_id == pId) = false := by
          simp [hpr, Ne.symm h]
        have hR : (r.salon_id == sid && r.product_id == pId) = false := by
          simp [hpr, Ne.symm h]
        simp only [List.find?_cons, hL, hR]
      · rw [if_neg hm]
        unfold lookupInvRow
        by_cases hp : (r.salon_id == sid && r.product_id == pId) = true
        · simp only [List.find?_cons, hp]
        · have hp' : (r.salon_id == sid && r.product_id == pId) = false := by
            simpa using hp
          simp only [List.find?_cons, hp']
          exact ih

theorem upsert_noop {items : List InvRow} {s p : Nat} {q : Int}
    (h : lookupInvRow items s p = some ⟨s, p, max q 0⟩) :
    upsert_inventory_entrepot items s p q = items := by
  induction items with
  | nil => simp [lookupInvRow] at h
  | cons r rest ih =>
      unfold lookupInvRow at h
      rw [List.find?_cons] at h
      unfold upsert_inventory_entrepot
      split at h
      · next hm =>
          rw [if_pos hm]
          injection h with h
          rw [h]
      · next hm =>
          rw [if_neg (by simpa using hm), ih h]

theorem ident_owner_unique {ps : List ProductRow} {A x : ProductRow}
    (hI : ps.Pairwise (fun a b => rowIdent a ≠ rowIdent b))
    (hA : A ∈ ps) (hx : x ∈ ps) (heq : rowIdent x = rowIdent A) : x = A := by
  by_contra hne
  exact (hI.forall (fun _ _ hab => Ne.symm hab) hx hA hne) heq

theorem identUnique_update {ps : List ProductRow} {d : Draft} {tid : Nat}
    (hid : ps.Pairwise (fun a b => a.id ≠ b.id))
    (hident : ps.Pairwise (fun a b => rowIdent a ≠ rowIdent b))
    (hown : ∀ r ∈ ps, rowIdent r = draftIdent d → r.id = tid) :
    (ps.map (fun r => if r.id == tid then draftRow r.id d else r)).Pairwise
      (fun a b => rowIdent a ≠ rowIdent b) := by
  rw [List.pairwise_map]
  refine (hid.and hident).imp_of_mem ?_
  intro a b ha hb hab
  obtain ⟨hab1, hab2⟩ := hab
  by_cases h1 : (a.id == tid) = true <;> by_cases h2 : (b.id == tid) = true
  · exact absurd ((eq_of_beq h1).trans (eq_of_beq h2).symm) hab1
  · simp only [h1, if_true, h2, Bool.false_eq_true, if_false, rowIdent_draftRow]
    intro hc
    exact h2 (by rw [hown b hb hc.symm]; exact beq_self_eq_true tid)
  · simp only [h1, Bool.false_eq_true, if_false, h2, if_true, rowIdent_draftRow]
    intro hc
    exact h1 (by rw [hown a ha hc]; exact beq_self_eq_true tid)
  · simpa [h1, h2] using hab2

theorem existingOf_cases_guarded {s : Store} {d : Draft} {ex : ProductRow}
    (h : existingOf s d = some ex)
    (hguard : (pyStrip d.wix_id != "" && d.options.wix_variant_id != "") = true) :
    findByIdentity s.products (pyStrip d.wix_id) d.options.wix_variant_id = some ex ∨
    (findByIdentity s.products (pyStrip d.wix_id) d.options.wix_variant_id = none ∧
     findBySku s.products (pyStrip d.sku) = some ex) := by
  simp only [existingOf] at h
  rw [if_pos hguard] at h
  split at h
  · next heq =>
      left
      rw [heq]
      injection h with h
      rw [h]
  · next heq => right; exact ⟨heq, h⟩

theorem applyUpdate_master (st : SyncState) (d : Draft) (store1 : Store)
    (mi : Nat) (ex : ProductRow)
    (hOK : StoreOK store1)
    (hown : ∀ r ∈ store1.products, r.sku = d.sku → r.id = ex.id)
    (hownI : ∀ r ∈ store1.products, rowIdent r = draftIdent d → r.id = ex.id)
    (hmem : ex ∈ store1.products) :
    StoreOK (applyUpdate st d store1 mi ex).1.store ∧
    draftRow (applyUpdate st d store1 mi ex).2 d ∈
      (applyUpdate st d store1 mi ex).1.store.products ∧
    (∀ r ∈ (applyUpdate st d store1 mi ex).1.store.products,
      r.id = (applyUpdate st d store1 mi ex).2 →
      r = draftRow (applyUpdate st d store1 mi ex).2 d) ∧
    (applyUpdate st d store1 mi ex).1.store.invItems = store1.invItems := by
  obtain ⟨hIds, hSku, hIdent⟩ := hOK
  refine ⟨⟨?_, ?_, ?_⟩, ?_, ?_, rfl⟩
  · exact (idsOk_map_id_preserving _
      (fun r => by by_cases h : (r.id == ex.id) = true <;> simp [h, draftRow]) hIds)
  · show (store1.products.map _).Pairwise _
    exact skuUnique_update hIds.1 hSku hown
  · show (store1.products.map _).Pairwise _
    exact identUnique_update hIds.1 hIdent hownI
  · show draftRow ex.id d ∈ store1.products.map _
    refine List.mem_map.mpr ⟨ex, hmem, ?_⟩
    simp
  · intro r hr hrid
    obtain ⟨x, hx, rfl⟩ := List.mem_map.mp hr
    by_cases hxe : (x.id == ex.id) = true
    · simp only [hxe, if_true]
      simp only [hxe, if_true, draftRow] at hrid
      show draftRow x.id d = draftRow ex.id d
      rw [show x.id = ex.id from hrid]
    · simp only [hxe, Bool.false_eq_true, if_false] at hrid ⊢
      exact absurd hrid (by simpa using hxe)

theorem applyCreate_master (st : SyncState) (d : Draft)
    (hts : pyStrip d.sku = d.sku) (htw : pyStrip d.wix_id = d.wix_id)
    (hOK : StoreOK st.store)
    (hO : findBySku st.store.products (pyStrip d.sku) = none)
    (hI : findByIdentity st.store.products (pyStrip d.wix_id)
      d.options.wix_variant_id = none) :
    StoreOK (applyCreate st d).1.store ∧
    draftRow (applyCreate st d).2 d ∈ (applyCreate st d).1.store.products ∧
    (∀ r ∈ (applyCreate st d).1.store.products, r.id = (applyCreate st d).2 →
      r = draftRow (applyCreate st d).2 d) ∧
    (applyCreate st d).1.store.invItems = st.store.invItems := by
  obtain ⟨hIds, hSku, hIdent⟩ := hOK
  have hbase := applyCreate_invariants st d hts hIds hSku hO
  refine ⟨⟨hbase.1, hbase.2, ?_⟩, ?_, ?_, rfl⟩
  · show (st.store.products ++ [draftRow st.store.nextId d]).Pairwise _
    rw [List.pairwise_append]
    refine ⟨hIdent, by simp, ?_⟩
    intro a ha b hb
    rw [List.mem_singleton.mp hb]
    rw [rowIdent_draftRow]
    intro hc
    refine findByIdentity_none hI a ha ?_
    have h1 : a.wix_id = d.wix_id := congrArg Prod.fst hc
    have h2 : a.options.wix_variant_id = d.options.wix_variant_id :=
      congrArg Prod.snd hc
    exact ⟨by rw [h1, htw], h2⟩
  · show draftRow st.store.nextId d ∈ st.store.products ++ [draftRow st.store.nextId d]
    exact List.mem_append_right _ (by simp)
  · intro r hr hrid
    rcases List.mem_append.mp hr with hl | hr1
    · exact absurd hrid (Nat.ne_of_lt (hIds.2 r hl))
    · rw [List.mem_singleton.mp hr1]
      rfl

theorem resolveApply_master (st : SyncState) (d : Draft)
    (hOK : StoreOK st.store)
    (hts : pyStrip d.sku = d.sku) (htw : pyStrip d.wix_id = d.wix_id)
    (hw : d.wix_id ≠ "") (hv : d.options.wix_variant_id ≠ "") :
    StoreOK (resolveApply st d).1.store ∧
    draftRow (resolveApply st d).2 d ∈ (resolveApply st d).1.store.products ∧
    (∀ r ∈ (resolveApply st d).1.store.products, r.id = (resolveApply st d).2 →
      r = draftRow (resolveApply st d).2 d) := by
  obtain ⟨hIds, hSku, hIdent⟩ := hOK
  have hguard : (pyStrip d.wix_id != "" && d.options.wix_variant_id != "") = true := by
    rw [htw]
    simp [hw, hv]
  unfold resolveApply
  cases hE : existingOf st.store d with
  | none =>
      obtain ⟨hIn, hOn⟩ := existingOf_none_parts hE hguard
      have := applyCreate_master st d hts htw ⟨hIds, hSku, hIdent⟩ hOn hIn
      exact ⟨this.1, this.2.1, this.2.2.1⟩
  | some ex =>
      cases hO : findBySku st.store.products (pyStrip d.sku) with
      | none =>
          dsimp only
          have hIm : findByIdentity st.store.products (pyStrip d.wix_id)
              d.options.wix_variant_id = some ex := by
            rcases existingOf_cases_guarded hE hguard with h | h
            · exact h
            · rw [h.2] at hO
              exact Option.noConfusion hO
          obtain ⟨hexm, hexw, hexv⟩ := findByIdentity_mem hIm
          have hexid : rowIdent ex = draftIdent d := by
            simp [rowIdent, draftIdent, hexv, hexw, htw]
          have := applyUpdate_master st d st.store 0 ex ⟨hIds, hSku, hIdent⟩
            (fun r hr hrk => absurd (by rwa [hts]) (findBySku_none hO r hr))
            (fun r hr hrid => by
              rw [ident_owner_unique hIdent hexm hr (hrid.trans hexid.symm)])
            hexm
          exact ⟨this.1, this.2.1, this.2.2.1⟩
      | some ow =>
          dsimp only
          obtain ⟨howm, howk⟩ := findBySku_mem hO
          by_cases hne : ow.id ≠ ex.id
          · rw [if_pos hne]
            have hIm : findByIdentity st.store.products (pyStrip d.wix_id)
                d.options.wix_variant_id = some ex := by
              rcases existingOf_cases_guarded hE hguard with h | h
              · exact h
              · rw [h.2] at hO
                injection hO with hO
                exact absurd (congrArg ProductRow.id hO) (Ne.symm hne)
            obtain ⟨hexm, hexw, hexv⟩ := findByIdentity_mem hIm
            have hexid : rowIdent ex = draftIdent d := by
              simp [rowIdent, draftIdent, hexv, hexw, htw]
            have hOKm : StoreOK (mergeStore st.store ex.id ow.id) :=
              ⟨idsOk_mergeStore hIds, skuUnique_mergeStore hSku,
               List.Pairwise.sublist (List.filter_sublist _) hIdent⟩
            have howf : ow ∈ (mergeStore st.store ex.id ow.id).products :=
              List.mem_filter.mpr ⟨howm, by simp [hne]⟩
            have := applyUpdate_master st d (mergeStore st.store ex.id ow.id) 1 ow hOKm
              (fun r hr hrk => by
                have hrm : r ∈ st.store.products := List.mem_of_mem_filter hr
                rw [sku_owner_unique hSku howm howk hrm (by rwa [hts])])
              (fun r hr hrid => by
                have hrm : r ∈ st.store.products := List.mem_of_mem_filter hr
                have : r = ex := ident_owner_unique hIdent hexm hrm
                  (hrid.trans hexid.symm)
                have hrne : r.id ≠ ex.id := by simpa using (List.mem_filter.mp hr).2
                exact absurd (congrArg ProductRow.id this) hrne)
              howf
            exact ⟨this.1, this.2.1, this.2.2.1⟩
          · rw [if_neg hne]
            push_neg at hne
            have hown : ∀ r ∈ st.store.products, r.sku = d.sku → r.id = ex.id := by
              intro r hr hrk
              rw [sku_owner_unique hSku howm howk hr (by rwa [hts]), hne]
            have hownI : ∀ r ∈ st.store.products,
                rowIdent r = draftIdent d → r.id = ex.id := by
              rcases existingOf_cases_guarded hE hguard with h | h
              · obtain ⟨hexm, hexw, hexv⟩ := findByIdentity_mem h
                have hexid : rowIdent ex = draftIdent d := by
                  simp [rowIdent, draftIdent, hexv, hexw, htw]
                intro r hr hrid
                rw [ident_owner_unique hIdent hexm hr (hrid.trans hexid.symm)]
              · intro r hr hrid
                refine absurd ?_ (findByIdentity_none h.1 r hr)
                have h1 : r.wix_id = d.wix_id := congrArg Prod.fst hrid
                have h2 : r.options.wix_variant_id = d.options.wix_variant_id :=
                  congrArg Prod.snd hrid
                exact ⟨by rw [h1, htw], h2⟩
            have hexm : ex ∈ st.store.products := by
              rcases existingOf_cases_guarded hE hguard with h | h
              · exact (findByIdentity_mem h).1
              · exact (findBySku_mem h.2).1
            have := applyUpdate_master st d st.store 0 ex ⟨hIds, hSku, hIdent⟩
              hown hownI hexm
            exact ⟨this.1, this.2.1, this.2.2.1⟩

theorem identUnique_map_of_mem {s : Store} (f : ProductRow → ProductRow)
    (hf : ∀ r ∈ s.products, rowIdent (f r) = rowIdent r) (h : IdentUnique s) :
    IdentUnique { s with products := s.products.map f } := by
  show (s.products.map f).Pairwise _
  rw [List.pairwise_map]
  refine h.imp_of_mem ?_
  intro a b ha hb hne
  rw [hf a ha, hf b hb]
  exact hne

theorem inventoryStep_master (invMap : InvMap) (eid : Nat) (wpid : String)
    (d : Draft) (pid : Nat) (st : SyncState)
    (hOK : StoreOK st.store)
    (hmem : draftRow pid d ∈ st.store.products)
    (huniq : ∀ r ∈ st.store.products, r.id = pid → r = draftRow pid d)
    (hv : d.options.wix_variant_id ≠ "") :
    StoreOK (inventoryStep invMap eid wpid d pid st).store ∧
    finalRow invMap (invKey wpid d) pid d ∈
      (inventoryStep invMap eid wpid d pid st).store.products ∧
    (∀ it, lookupInv invMap (invKey wpid d) = some it → it.track = true →
      lookupInvRow (inventoryStep invMap eid wpid d pid st).store.invItems eid pid =
        some ⟨eid, pid, max it.qty 0⟩) := by
  obtain ⟨hIds, hSku, hIdent⟩ := hOK
  have hvb : (d.options.wix_variant_id != "") = true := by simp [hv]
  simp only [inventoryStep]
  rw [if_pos hvb]
  cases hit : lookupInv invMap (invKey wpid d) with
  | none =>
      refine ⟨⟨hIds, hSku, hIdent⟩, ?_, ?_⟩
      · have hfr : finalRow invMap (invKey wpid d) pid d = draftRow pid d := by
          simp [finalRow, finalOptions, hit]
          rfl
        rw [hfr]
        exact hmem
      · intro it hit' _
        exact Option.noConfusion hit'
  | some it =>
      dsimp only
      cases hvs : it.vendor_sku with
      | none =>
          dsimp only
          have hfr : finalRow invMap (invKey wpid d) pid d = draftRow pid d := by
            simp [finalRow, finalOptions, hit, hvs]
            rfl
          by_cases htr : it.track = true
          · rw [if_pos htr]
            refine ⟨⟨hIds, hSku, hIdent⟩, by rw [hfr]; exact hmem, ?_⟩
            intro it' hit' _
            have h1 : it' = it := by
              injection hit' with h
              exact h.symm
            rw [h1]
            exact upsert_lookup st.store.invItems eid pid it.qty
          · rw [if_neg htr]
            refine ⟨⟨hIds, hSku, hIdent⟩, by rw [hfr]; exact hmem, ?_⟩
            intro it' hit' htr'
            have h1 : it' = it := by
              injection hit' with h
              exact h.symm
            exact absurd (h1 ▸ htr') htr
      | some vs =>
          dsimp only
          by_cases hemp : (vs == "") = true
          · rw [if_pos hemp]
            have hfr : finalRow invMap (invKey wpid d) pid d = draftRow pid d := by
              simp [finalRow, finalOptions, hit, hvs, hemp]
              rfl
            by_cases htr : it.track = true
            · rw [if_pos htr]
              refine ⟨⟨hIds, hSku, hIdent⟩, by rw [hfr]; exact hmem, ?_⟩
              intro it' hit' _
              have h1 : it' = it := by
                injection hit' with h
                exact h.symm
              rw [h1]
              exact upsert_lookup st.store.invItems eid pid it.qty
            · rw [if_neg htr]
              refine ⟨⟨hIds, hSku, hIdent⟩, by rw [hfr]; exact hmem, ?_⟩
              intro it' hit' htr'
              have h1 : it' = it := by
                injection hit' with h
                exact h.symm
              exact absurd (h1 ▸ htr') htr
          · rw [if_neg (show ¬((vs == "") = true) by simpa using hemp)]
            have hOKm : StoreOK { st.store with
                products := st.store.products.map
                  (fun r => if r.id == pid then
                      { r with options := { d.options with vendor_sku := some vs } }
                    else r) } := by
              refine ⟨?_, ?_, ?_⟩
              · exact idsOk_map_id_preserving _
                  (fun r => by by_cases h : (r.id == pid) = true <;> simp [h]) hIds
              · exact skuUnique_map_sku_preserving _
                  (fun r => by by_cases h : (r.id == pid) = true <;> simp [h]) hSku
              · refine identUnique_map_of_mem _ ?_ hIdent
                intro r hr
                by_cases h : (r.id == pid) = true
                · have hrd : r = draftRow pid d := huniq r hr (eq_of_beq h)
                  rw [hrd]
                  simp [rowIdent, draftRow]
                · simp [h]
            have hfmem : finalRow invMap (invKey wpid d) pid d ∈
                (st.store.products.map
                  (fun r => if r.id == pid then
                      { r with options := { d.options with vendor_sku := some vs } }
                    else r)) := by
              refine List.mem_map.mpr ⟨draftRow pid d, hmem, ?_⟩
              have hbe : ((draftRow pid d).id == pid) = true := by
                simp [draftRow]
              rw [if_pos hbe]
              simp [finalRow, finalOptions, hit, hvs, hemp]
            by_cases htr : it.track = true
            · rw [if_pos htr]
              refine ⟨hOKm, hfmem, ?_⟩
              intro it' hit' _
              have h1 : it' = it := by
                injection hit' with h
                exact h.symm
              rw [h1]
              exact upsert_lookup _ eid pid it.qty
            · rw [if_neg htr]
              refine ⟨hOKm, hfmem, ?_⟩
              intro it' hit' htr'
              have h1 : it' = it := by
                injection hit' with h
                exact h.symm
              exact absurd (h1 ▸ htr') htr

theorem id_owner_unique {ps : List ProductRow} {A x : ProductRow}
    (hid : ps.Pairwise (fun a b => a.id ≠ b.id))
    (hA : A ∈ ps) (hx : x ∈ ps) (heq : x.id = A.id) : x = A := by
  by_contra hne
  exact (hid.forall (fun _ _ hab => Ne.symm hab) hx hA hne) heq

theorem processVariant_skip_none {invMap : InvMap} {eid : Nat} {wpid : String}
    {p v : Dict} {st : SyncState} (hn : normalize_variant p v = none) :
    processVariant invMap eid wpid p v st =
      { st with variants_seen := st.variants_seen + 1
              , skipped_no_sku := st.skipped_no_sku + 1 } := by
  simp only [processVariant, hn]

theorem processVariant_establish (invMap : InvMap) (eid : Nat) (wpid : String)
    (p v : Dict) (st : SyncState) (d : Draft)
    (hOK : StoreOK st.store)
    (hn : normalize_variant p v = some d)
    (hwp : wpid = d.wix_id)
    (hw : d.wix_id ≠ "") (hv : d.options.wix_variant_id ≠ "") :
    StoreOK (processVariant invMap eid wpid p v st).store ∧
    Synced invMap eid d (processVariant invMap eid wpid p v st).store := by
  subst hwp
  obtain ⟨hts, hsne, htw, _⟩ := normalize_wf hn
  have hsk : (pyStrip d.sku == "") = false := by
    rw [hts]
    simp [hsne]
  simp only [processVariant, hn]
  rw [if_neg (show ¬((pyStrip d.sku == "") = true) by simp [hsk])]
  obtain ⟨hOK2, hmem2, huniq2⟩ :=
    resolveApply_master { st with variants_seen := st.variants_seen + 1 } d hOK hts htw hw hv
  obtain ⟨hOK3, hmem3, hinv3⟩ :=
    inventoryStep_master invMap eid d.wix_id d
      (resolveApply { st with variants_seen := st.variants_seen + 1 } d).2
      (resolveApply { st with variants_seen := st.variants_seen + 1 } d).1
      hOK2 hmem2 huniq2 hv
  refine ⟨hOK3,
    finalRow invMap (invKey d.wix_id d)
      (resolveApply { st with variants_seen := st.variants_seen + 1 } d).2 d,
    hmem3, finalRow_wvid _ _ _ _, ?_, ?_⟩
  · rw [finalRow_id]
  · intro it hit htr
    rw [finalRow_id]
    exact hinv3 it hit htr

theorem resolveApply_stable (st : SyncState) (e : Draft) {rD : ProductRow}
    (hOK : StoreOK st.store)
    (hts : pyStrip e.sku = e.sku) (htw : pyStrip e.wix_id = e.wix_id)
    (hw : e.wix_id ≠ "") (hv : e.options.wix_variant_id ≠ "")
    (hmemD : rD ∈ st.store.products)
    (hskuD : rD.sku ≠ e.sku)
    (hidD : rowIdent rD ≠ draftIdent e) :
    rD ∈ (resolveApply st e).1.store.products ∧
    (resolveApply st e).2 ≠ rD.id ∧
    (∀ sid, lookupInvRow (resolveApply st e).1.store.invItems sid rD.id =
      lookupInvRow st.store.invItems sid rD.id) := by
  obtain ⟨hIds, hSku, hIdent⟩ := hOK
  have hguard : (pyStrip e.wix_id != "" && e.options.wix_variant_id != "") = true := by
    rw [htw]
    simp [hw, hv]
  unfold resolveApply
  cases hE : existingOf st.store e with
  | none =>
      exact ⟨List.mem_append_left _ hmemD,
        Nat.ne_of_gt (hIds.2 rD hmemD), fun sid => rfl⟩
  | some ex =>
      cases hO : findBySku st.store.products (pyStrip e.sku) with
      | none =>
          dsimp only
          have hIm : findByIdentity st.store.products (pyStrip e.wix_id)
              e.options.wix_variant_id = some ex := by
            rcases existingOf_cases_guarded hE hguard with h | h
            · exact h
            · rw [h.2] at hO
              exact Option.noConfusion hO
          obtain ⟨hexm, hexw, hexv⟩ := findByIdentity_mem hIm
          have hexid : rowIdent ex = draftIdent e := by
            simp [rowIdent, draftIdent, hexv, hexw, htw]
          have hexne : ex ≠ rD := by
            intro hc
            exact hidD (by rw [← hc]; exact hexid)
          have hneid : ex.id ≠ rD.id := mem_ne_id hIds.1 hexm hmemD hexne
          refine ⟨?_, hneid, fun sid => rfl⟩
          refine List.mem_map.mpr ⟨rD, hmemD, ?_⟩
          rw [if_neg (show ¬((rD.id == ex.id) = true) by simp [Ne.symm hneid])]
      | some ow =>
          dsimp only
          obtain ⟨howm, howk⟩ := findBySku_mem hO
          have hoskune : ow ≠ rD := by
            intro hc
            exact hskuD (by rw [← hc, howk, hts])
          have hownid : ow.id ≠ rD.id := mem_ne_id hIds.1 howm hmemD hoskune
          by_cases hne : ow.id ≠ ex.id
          · rw [if_pos hne]
            have hIm : findByIdentity st.store.products (pyStrip e.wix_id)
                e.options.wix_variant_id = some ex := by
              rcases existingOf_cases_guarded hE hguard with h | h
              · exact h
              · rw [h.2] at hO
                injection hO with hO
                exact absurd (congrArg ProductRow.id hO) (Ne.symm hne)
            obtain ⟨hexm, hexw, hexv⟩ := findByIdentity_mem hIm
            have hexid : rowIdent ex = draftIdent e := by
              simp [rowIdent, draftIdent, hexv, hexw, htw]
            have hexne : ex ≠ rD := by
              intro hc
              exact hidD (by rw [← hc]; exact hexid)
            have hexnid : ex.id ≠ rD.id := mem_ne_id hIds.1 hexm hmemD hexne
            refine ⟨?_, hownid, ?_⟩
            · refine List.mem_map.mpr ⟨rD,
                List.mem_filter.mpr ⟨hmemD, by simp [Ne.symm hexnid]⟩, ?_⟩
              rw [if_neg (show ¬((rD.id == ow.id) = true) by simp [Ne.symm hownid])]
            · exact fun sid =>
                lookupInvRow_map_repoint (Ne.symm hexnid) (Ne.symm hownid)
          · rw [if_neg hne]
            push_neg at hne
            have hexnid : ex.id ≠ rD.id := hne ▸ hownid
            refine ⟨?_, hexnid, fun sid => rfl⟩
            refine List.mem_map.mpr ⟨rD, hmemD, ?_⟩
            rw [if_neg (show ¬((rD.id == ex.id) = true) by simp [Ne.symm hexnid])]

theorem inventoryStep_stable (invMap : InvMap) (eid : Nat) (wpid : String)
    (e : Draft) (pid : Nat) (st : SyncState) {rD : ProductRow}
    (hmemD : rD ∈ st.store.products)
    (hne : pid ≠ rD.id) :
    rD ∈ (inventoryStep invMap eid wpid e pid st).store.products ∧
    (∀ sid, lookupInvRow (inventoryStep invMap eid wpid e pid st).store.invItems
      sid rD.id = lookupInvRow st.store.invItems sid rD.id) := by
  simp only [inventoryStep]
  by_cases hg : (e.options.wix_variant_id != "") = true
  · rw [if_pos hg]
    cases hit : lookupInv invMap (invKey wpid e) with
    | none => exact ⟨hmemD, fun sid => rfl⟩
    | some it =>
        dsimp only
        cases hvs : it.vendor_sku with
        | none =>
            dsimp only
            by_cases htr : it.track = true
            · rw [if_pos htr]
              exact ⟨hmemD, fun sid => upsert_preserves_other (Ne.symm hne)⟩
            · rw [if_neg htr]
              exact ⟨hmemD, fun sid => rfl⟩
        | some vs =>
            dsimp only
            by_cases hemp : (vs == "") = true
            · rw [if_pos hemp]
              by_cases htr : it.track = true
              · rw [if_pos htr]
                exact ⟨hmemD, fun sid => upsert_preserves_other (Ne.symm hne)⟩
              · rw [if_neg htr]
                exact ⟨hmemD, fun sid => rfl⟩
            · rw [if_neg (show ¬((vs == "") = true) by simp [hemp])]
              have hmem2 : rD ∈ st.store.products.map
                  (fun r => if r.id == pid then
                      { r with options := { e.options with vendor_sku := some vs } }
                    else r) := by
                refine List.mem_map.mpr ⟨rD, hmemD, ?_⟩
                rw [if_neg (show ¬((rD.id == pid) = true) by simp [Ne.symm hne])]
              by_cases htr : it.track = true
              · rw [if_pos htr]
                exact ⟨hmem2, fun sid => upsert_preserves_other (Ne.symm hne)⟩
              · rw [if_neg htr]
                exact ⟨hmem2, fun sid => rfl⟩
  · rw [if_neg hg]
    exact ⟨hmemD, fun sid => rfl⟩

theorem processVariant_stable (invMap : InvMap) (eid : Nat) (wpid : String)
    (p v : Dict) (st : SyncState) (dOld e : Draft)
    (hOK : StoreOK st.store)
    (hn : normalize_variant p v = some e)
    (hwp : wpid = e.wix_id)
    (hw : e.wix_id ≠ "") (hv : e.options.wix_variant_id ≠ "")
    (hSy : Synced invMap eid dOld st.store)
    (hsku : dOld.sku ≠ e.sku) (hident : draftIdent dOld ≠ draftIdent e) :
    Synced invMap eid dOld (processVariant invMap eid wpid p v st).store := by
  subst hwp
  obtain ⟨hts, hsne, htw, _⟩ := normalize_wf hn
  have hsk : (pyStrip e.sku == "") = false := by
    rw [hts]
    simp [hsne]
  simp only [processVariant, hn]
  rw [if_neg (show ¬((pyStrip e.sku == "") = true) by simp [hsk])]
  obtain ⟨rD, hmemD, hidD, hfrD, hinvD⟩ := hSy
  have hskuD : rD.sku ≠ e.sku := by
    have hs : rD.sku = dOld.sku := by
      rw [hfrD, finalRow_sku]
    rw [hs]
    exact hsku
  have hidD' : rowIdent rD ≠ draftIdent e := by
    rw [hidD]
    exact hident
  obtain ⟨hm1, hne1, hinv1⟩ :=
    resolveApply_stable { st with variants_seen := st.variants_seen + 1 } e
      hOK hts htw hw hv hmemD hskuD hidD'
  obtain ⟨hm2, hinv2⟩ :=
    inventoryStep_stable invMap eid e.wix_id e
      (resolveApply { st with variants_seen := st.variants_seen + 1 } e).2
      (resolveApply { st with variants_seen := st.variants_seen + 1 } e).1
      hm1 hne1
  refine ⟨rD, hm2, hidD, hfrD, ?_⟩
  intro it hit htr
  rw [hinv2 eid, hinv1 eid]
  exact hinvD it hit htr

theorem resolveApply_noop (st : SyncState) (d : Draft) {rD : ProductRow}
    (hOK : StoreOK st.store)
    (hts : pyStrip d.sku = d.sku) (htw : pyStrip d.wix_id = d.wix_id)
    (hw : d.wix_id ≠ "") (hv : d.options.wix_variant_id ≠ "")
    (hmemD : rD ∈ st.store.products)
    (hidD : rowIdent rD = draftIdent d)
    (hskuD : rD.sku = d.sku) :
    resolveApply st d =
      ({ st with
         store := { st.store with
           products := st.store.products.map
             (fun r => if r.id == rD.id then draftRow r.id d else r) }
       , updated := st.updated + 1 }, rD.id) := by
  obtain ⟨hIds, hSku, hIdent⟩ := hOK
  have hguard : (pyStrip d.wix_id != "" && d.options.wix_variant_id != "") = true := by
    rw [htw]
    simp [hw, hv]
  have hIm : findByIdentity st.store.products (pyStrip d.wix_id)
      d.options.wix_variant_id = some rD := by
    refine findByIdentity_unique hIdent hmemD ?_ (congrArg Prod.snd hidD)
    rw [htw]
    exact congrArg Prod.fst hidD
  have hOw : findBySku st.store.products (pyStrip d.sku) = some rD := by
    refine findBySku_unique hSku hmemD ?_
    rw [hts]
    exact hskuD
  have hE : existingOf st.store d = some rD := by
    simp only [existingOf]
    rw [if_pos hguard, hIm]
  unfold resolveApply
  rw [hE, hOw]
  dsimp only
  rw [if_neg (show ¬(rD.id ≠ rD.id) by simp)]
  rfl

theorem processVariant_noop (invMap : InvMap) (eid : Nat) (wpid : String)
    (p v : Dict) (st : SyncState) (d : Draft)
    (hOK : StoreOK st.store)
    (hn : normalize_variant p v = some d)
    (hwp : wpid = d.wix_id)
    (hw : d.wix_id ≠ "") (hv : d.options.wix_variant_id ≠ "")
    (hSy : Synced invMap eid d st.store) :
    processVariant invMap eid wpid p v st =
      { st with variants_seen := st.variants_seen + 1
              , updated := st.updated + 1
              , inv_written := st.inv_written + invWrote invMap (invKey d.wix_id d) } := by
  subst hwp
  obtain ⟨hts, hsne, htw, hvw⟩ := normalize_wf hn
  obtain ⟨hIds, hSku, hIdent⟩ := hOK
  have hsk : (pyStrip d.sku == "") = false := by
    rw [hts]
    simp [hsne]
  obtain ⟨rD, hmemD, hidD, hfrD, hinvD⟩ := hSy
  have hskuD : rD.sku = d.sku := by
    rw [hfrD, finalRow_sku]
  have hvb : (d.options.wix_variant_id != "") = true := by simp [hv]
  have hdr0 : finalOptions invMap (invKey d.wix_id d) d = d.options →
      draftRow rD.id d = rD := by
    intro hfo
    conv_rhs => rw [hfrD]
    simp [finalRow, hfo, draftRow]
  have hmap1 : ∀ (hdr : draftRow rD.id d = rD),
      st.store.products.map
        (fun r => if r.id == rD.id then draftRow r.id d else r) =
        st.store.products := by
    intro hdr
    refine map_pointwise_id ?_
    intro r hr
    by_cases h : (r.id == rD.id) = true
    · rw [if_pos h]
      have hrD : r = rD := id_owner_unique hIds.1 hmemD hr (eq_of_beq h)
      rw [hrD]
      exact hdr
    · rw [if_neg (by simpa using h)]
  simp only [processVariant, hn]
  rw [if_neg (show ¬((pyStrip d.sku == "") = true) by simp [hsk])]
  rw [resolveApply_noop { st with variants_seen := st.variants_seen + 1 } d
    ⟨hIds, hSku, hIdent⟩ hts htw hw hv hmemD hidD hskuD]
  dsimp only
  simp only [inventoryStep]
  rw [if_pos hvb]
  cases hit : lookupInv invMap (invKey d.wix_id d) with
  | none =>
      have hiw : invWrote invMap (invKey d.wix_id d) = 0 := by
        simp [invWrote, hit]
      rw [hiw]
      have hfo : finalOptions invMap (invKey d.wix_id d) d = d.options := by
        simp [finalOptions, hit]
      rw [hmap1 (hdr0 hfo)]
      rfl
  | some it =>
      dsimp only
      cases hvs : it.vendor_sku with
      | none =>
          dsimp only
          have hfo : finalOptions invMap (invKey d.wix_id d) d = d.options := by
            simp [finalOptions, hit, hvs]
          rw [hmap1 (hdr0 hfo)]
          by_cases htr : it.track = true
          · rw [if_pos htr]
            have hiw : invWrote invMap (invKey d.wix_id d) = 1 := by
              simp [invWrote, hit, htr]
            rw [hiw]
            rw [upsert_noop (hinvD it hit htr)]
          · rw [if_neg htr]
            have hiw : invWrote invMap (invKey d.wix_id d) = 0 := by
              simp [invWrote, hit]
              simp [htr]
            rw [hiw]
            rfl
      | some vs =>
          dsimp only
          by_cases hemp : (vs == "") = true
          · rw [if_pos hemp]
            have hfo : finalOptions invMap (invKey d.wix_id d) d = d.options := by
              simp [finalOptions, hit, hvs, hemp]
            rw [hmap1 (hdr0 hfo)]
            by_cases htr : it.track = true
            · rw [if_pos htr]
              have hiw : invWrote invMap (invKey d.wix_id d) = 1 := by
                simp [invWrote, hit, htr]
              rw [hiw]
              rw [upsert_noop (hinvD it hit htr)]
            · rw [if_neg htr]
              have hiw : invWrote invMap (invKey d.wix_id d) = 0 := by
                simp [invWrote, hit]
                simp [htr]
              rw [hiw]
              rfl
          · rw [if_neg (show ¬((vs == "") = true) by simp [hemp])]
            have hmap2 : (st.store.products.map
                (fun r => if r.id == rD.id then draftRow r.id d else r)).map
                (fun r => if r.id == rD.id then
                    { r with options := { d.options with vendor_sku := some vs } }
                  else r) = st.store.products := by
              rw [List.map_map]
              refine map_pointwise_id ?_
              intro r hr
              simp only [Function.comp_apply]
              by_cases h : (r.id == rD.id) = true
              · rw [if_pos h]
                rw [if_pos (show ((draftRow r.id d).id == rD.id) = true from h)]
                have hrD : r = rD := id_owner_unique hIds.1 hmemD hr (eq_of_beq h)
                rw [hrD]
                conv_rhs => rw [hfrD]
                simp [finalRow, finalOptions, hit, hvs, hemp, draftRow]
              · have hin : (if (r.id == rD.id) = true then draftRow r.id d else r) = r :=
                  if_neg (by simpa using h)
                rw [hin]
                rw [if_neg (by simpa using h)]
            rw [hmap2]
            by_cases htr : it.track = true
            · rw [if_pos htr]
              have hiw : invWrote invMap (invKey d.wix_id d) = 1 := by
                simp [invWrote, hit, htr]
              rw [hiw]
              rw [upsert_noop (hinvD it hit htr)]
            · rw [if_neg htr]
              have hiw : invWrote invMap (invKey d.wix_id d) = 0 := by
                simp [invWrote, hit]
                simp [htr]
              rw [hiw]
              rfl

theorem draftsOf_cons_pos {vt : VariantsTable} {q : Dict} {qs : List Dict}
    (h : (pyOr (dget q "id") (dget q "_id")).truthy = true) :
    draftsOf vt (q :: qs) = parentDrafts vt q ++ draftsOf vt qs := by
  simp [draftsOf, List.filter_cons, h, List.flatMap_cons]

theorem draftsOf_cons_neg {vt : VariantsTable} {q : Dict} {qs : List Dict}
    (h : (pyOr (dget q "id") (dget q "_id")).truthy = false) :
    draftsOf vt (q :: qs) = draftsOf vt qs := by
  simp [draftsOf, List.filter_cons, h]

theorem foldVariants_establish (invMap : InvMap) (eid : Nat) (wpid : String)
    (p : Dict) (vs : List Dict) (st : SyncState) (D : List Draft)
    (hOK : StoreOK st.store)
    (hD : ∀ d ∈ D, Synced invMap eid d st.store)
    (hwp : ∀ d ∈ vs.filterMap (fun v => normalize_variant p v), wpid = d.wix_id)
    (hG : ∀ d ∈ vs.filterMap (fun v => normalize_variant p v), GuardedDraft d)
    (hdisj : ∀ d ∈ D, ∀ e ∈ vs.filterMap (fun v => normalize_variant p v),
      DisjointDrafts d e)
    (hpair : (vs.filterMap (fun v => normalize_variant p v)).Pairwise DisjointDrafts) :
    StoreOK ((vs.foldl (fun s v => processVariant invMap eid wpid p v s) st)).store ∧
    (∀ d, (d ∈ D ∨ d ∈ vs.filterMap (fun v => normalize_variant p v)) →
      Synced invMap eid d
        ((vs.foldl (fun s v => processVariant invMap eid wpid p v s) st)).store) := by
  induction vs generalizing st D with
  | nil =>
      refine ⟨hOK, ?_⟩
      intro d hd
      rcases hd with hd | hd
      · exact hD d hd
      · exact absurd hd (by simp)
  | cons v vs ih =>
      rw [List.foldl_cons]
      cases hn : normalize_variant p v with
      | none =>
          have hfm : (v :: vs).filterMap (fun v => normalize_variant p v) =
              vs.filterMap (fun v => normalize_variant p v) := by
            simp [List.filterMap_cons, hn]
          rw [hfm] at hwp hG hdisj hpair ⊢
          rw [processVariant_skip_none hn]
          exact ih _ D hOK hD hwp hG hdisj hpair
      | some e =>
          have hfm : (v :: vs).filterMap (fun v => normalize_variant p v) =
              e :: vs.filterMap (fun v => normalize_variant p v) := by
            simp [List.filterMap_cons, hn]
          rw [hfm] at hwp hG hdisj hpair ⊢
          have hGe : GuardedDraft e := hG e (by simp)
          have hwpe : wpid = e.wix_id := hwp e (by simp)
          obtain ⟨hOK1, hSye⟩ :=
            processVariant_establish invMap eid wpid p v st e hOK hn hwpe hGe.1 hGe.2
          have hD1 : ∀ d ∈ D,
              Synced invMap eid d (processVariant invMap eid wpid p v st).store := by
            intro d hd
            exact processVariant_stable invMap eid wpid p v st d e hOK hn hwpe
              hGe.1 hGe.2 (hD d hd)
              (hdisj d hd e (by simp)).1 (hdisj d hd e (by simp)).2
          obtain ⟨hOK2, hS2⟩ := ih (processVariant invMap eid wpid p v st) (e :: D)
            hOK1
            (by
              intro d hd
              rcases List.mem_cons.mp hd with rfl | hd
              · exact hSye
              · exact hD1 d hd)
            (fun d hd => hwp d (by simp [hd]))
            (fun d hd => hG d (by simp [hd]))
            (by
              intro d hd f hf
              rcases List.mem_cons.mp hd with rfl | hd
              · exact (List.pairwise_cons.mp hpair).1 f hf
              · exact hdisj d hd f (by simp [hf]))
            (List.pairwise_cons.mp hpair).2
          refine ⟨hOK2, ?_⟩
          intro d hd
          refine hS2 d ?_
          rcases hd with hd | hd
          · exact Or.inl (by simp [hd])
          · rcases List.mem_cons.mp hd with rfl | hd
            · exact Or.inl (by simp)
            · exact Or.inr hd

theorem foldParents_establish (invMap : InvMap) (eid : Nat) (vt : VariantsTable)
    (parents : List Dict) (st : SyncState) (D : List Draft)
    (hOK : StoreOK st.store)
    (hD : ∀ d ∈ D, Synced invMap eid d st.store)
    (hG : ∀ d ∈ draftsOf vt parents, GuardedDraft d)
    (hdisj : ∀ d ∈ D, ∀ e ∈ draftsOf vt parents, DisjointDrafts d e)
    (hpair : (draftsOf vt parents).Pairwise DisjointDrafts) :
    StoreOK (parents.foldl (processParent invMap eid vt) st).store ∧
    (∀ d, (d ∈ D ∨ d ∈ draftsOf vt parents) →
      Synced invMap eid d (parents.foldl (processParent invMap eid vt) st).store) := by
  induction parents generalizing st D with
  | nil =>
      refine ⟨hOK, ?_⟩
      intro d hd
      rcases hd with hd | hd
      · exact hD d hd
      · exact absurd hd (by simp [draftsOf])
  | cons q qs ih =>
      rw [List.foldl_cons]
      by_cases hq : (pyOr (dget q "id") (dget q "_id")).truthy = true
      · have hdq : draftsOf vt (q :: qs) = parentDrafts vt q ++ draftsOf vt qs :=
          draftsOf_cons_pos hq
        rw [hdq] at hG hdisj hpair ⊢
        have hpp : processParent invMap eid vt st q =
            (variantsOf vt (pyStrip (pyOr (dget q "id") (dget q "_id")).pyStr)).foldl
              (fun s v => processVariant invMap eid
                (pyStrip (pyOr (dget q "id") (dget q "_id")).pyStr) q v s)
              { st with parents_processed := st.parents_processed + 1 } := by
          simp only [processParent]
          rw [if_pos hq]
        rw [hpp]
        obtain ⟨hOK1, hS1⟩ := foldVariants_establish invMap eid
          (pyStrip (pyOr (dget q "id") (dget q "_id")).pyStr) q
          (variantsOf vt (pyStrip (pyOr (dget q "id") (dget q "_id")).pyStr))
          { st with parents_processed := st.parents_processed + 1 } D
          hOK hD
          (by
            intro d hd
            obtain ⟨v, hv, hnv⟩ := List.mem_filterMap.mp hd
            exact (normalize_wix_id hnv).symm)
          (fun d hd => hG d (List.mem_append_left _ hd))
          (fun d hd e he => hdisj d hd e (List.mem_append_left _ he))
          (List.pairwise_append.mp hpair).1
        obtain ⟨hOK2, hS2⟩ := ih _ (D ++ parentDrafts vt q) hOK1
          (by
            intro d hd
            rcases List.mem_append.mp hd with hd | hd
            · exact hS1 d (Or.inl hd)
            · exact hS1 d (Or.inr hd))
          (fun d hd => hG d (List.mem_append_right _ hd))
          (by
            intro d hd e he
            rcases List.mem_append.mp hd with hd | hd
            · exact hdisj d hd e (List.mem_append_right _ he)
            · exact (List.pairwise_append.mp hpair).2.2 d hd e he)
          (List.pairwise_append.mp hpair).2.1
        refine ⟨hOK2, ?_⟩
        intro d hd
        refine hS2 d ?_
        rcases hd with hd | hd
        · exact Or.inl (List.mem_append_left _ hd)
        · rcases List.mem_append.mp hd with hd | hd
          · exact Or.inl (List.mem_append_right _ hd)
          · exact Or.inr hd
      · have hdq : draftsOf vt (q :: qs) = draftsOf vt qs :=
          draftsOf_cons_neg (by simpa using hq)
        rw [hdq] at hG hdisj hpair ⊢
        have hpp : processParent invMap eid vt st q = st := by
          simp only [processParent]
          rw [if_neg hq]
        rw [hpp]
        exact ih st D hOK hD hG hdisj hpair

theorem foldVariants_noop (invMap : InvMap) (eid : Nat) (wpid : String)
    (p : Dict) (vs : List Dict) (st : SyncState)
    (hOK : StoreOK st.store)
    (hSy : ∀ d ∈ vs.filterMap (fun v => normalize_variant p v),
      Synced invMap eid d st.store)
    (hwp : ∀ d ∈ vs.filterMap (fun v => normalize_variant p v), wpid = d.wix_id)
    (hG : ∀ d ∈ vs.filterMap (fun v => normalize_variant p v), GuardedDraft d) :
    ((vs.foldl (fun s v => processVariant invMap eid wpid p v s) st)).store =
      st.store ∧
    ((vs.foldl (fun s v => processVariant invMap eid wpid p v s) st)).created =
      st.created ∧
    ((vs.foldl (fun s v => processVariant invMap eid wpid p v s) st)).merged =
      st.merged ∧
    ((vs.foldl (fun s v => processVariant invMap eid wpid p v s) st)).updated =
      st.updated + (vs.filterMap (fun v => normalize_variant p v)).length := by
  induction vs generalizing st with
  | nil => exact ⟨rfl, rfl, rfl, rfl⟩
  | cons v vs ih =>
      rw [List.foldl_cons]
      cases hn : normalize_variant p v with
      | none =>
          have hfm : (v :: vs).filterMap (fun v => normalize_variant p v) =
              vs.filterMap (fun v => normalize_variant p v) := by
            simp [List.filterMap_cons, hn]
          rw [hfm] at hSy hwp hG ⊢
          rw [processVariant_skip_none hn]
          exact ih _ hOK hSy hwp hG
      | some e =>
          have hfm : (v :: vs).filterMap (fun v => normalize_variant p v) =
              e :: vs.filterMap (fun v => normalize_variant p v) := by
            simp [List.filterMap_cons, hn]
          rw [hfm] at hSy hwp hG ⊢
          have hGe : GuardedDraft e := hG e (by simp)
          have hwpe : wpid = e.wix_id := hwp e (by simp)
          have hSye : Synced invMap eid e st.store := hSy e (by simp)
          rw [processVariant_noop invMap eid wpid p v st e hOK hn hwpe
            hGe.1 hGe.2 hSye]
          obtain ⟨h1, h2, h3, h4⟩ := ih
            { st with variants_seen := st.variants_seen + 1
                    , updated := st.updated + 1
                    , inv_written := st.inv_written +
                        invWrote invMap (invKey e.wix_id e) }
            hOK
            (fun d hd => hSy d (by simp [hd]))
            (fun d hd => hwp d (by simp [hd]))
            (fun d hd => hG d (by simp [hd]))
          refine ⟨h1, h2, h3, ?_⟩
          rw [h4]
          dsimp only
          rw [List.length_cons]
          omega

theorem foldParents_noop (invMap : InvMap) (eid : Nat) (vt : VariantsTable)
    (parents : List Dict) (st : SyncState)
    (hOK : StoreOK st.store)
    (hSy : ∀ d ∈ draftsOf vt parents, Synced invMap eid d st.store)
    (hG : ∀ d ∈ draftsOf vt parents, GuardedDraft d) :
    (parents.foldl (processParent invMap eid vt) st).store = st.store ∧
    (parents.foldl (processParent invMap eid vt) st).created = st.created ∧
    (parents.foldl (processParent invMap eid vt) st).merged = st.merged ∧
    (parents.foldl (processParent invMap eid vt) st).updated =
      st.updated + (draftsOf vt parents).length := by
  induction parents generalizing st with
  | nil => exact ⟨rfl, rfl, rfl, rfl⟩
  | cons q qs ih =>
      rw [List.foldl_cons]
      by_cases hq : (pyOr (dget q "id") (dget q "_id")).truthy = true
      · have hdq : draftsOf vt (q :: qs) = parentDrafts vt q ++ draftsOf vt qs :=
          draftsOf_cons_pos hq
        rw [hdq] at hSy hG ⊢
        have hpp : processParent invMap eid vt st q =
            (variantsOf vt (pyStrip (pyOr (dget q "id") (dget q "_id")).pyStr)).foldl
              (fun s v => processVariant invMap eid
                (pyStrip (pyOr (dget q "id") (dget q "_id")).pyStr) q v s)
              { st with parents_processed := st.parents_processed + 1 } := by
          simp only [processParent]
          rw [if_pos hq]
        rw [hpp]
        obtain ⟨g1, g2, g3, g4⟩ := foldVariants_noop invMap eid
          (pyStrip (pyOr (dget q "id") (dget q "_id")).pyStr) q
          (variantsOf vt (pyStrip (pyOr (dget q "id") (dget q "_id")).pyStr))
          { st with parents_processed := st.parents_processed + 1 }
          hOK
          (fun d hd => hSy d (List.mem_append_left _ hd))
          (by
            intro d hd
            obtain ⟨v, hv, hnv⟩ := List.mem_filterMap.mp hd
            exact (normalize_wix_id hnv).symm)
          (fun d hd => hG d (List.mem_append_left _ hd))
        obtain ⟨h1, h2, h3, h4⟩ := ih _
          (by rw [g1]; exact hOK)
          (by
            intro d hd
            rw [g1]
            exact hSy d (List.mem_append_right _ hd))
          (fun d hd => hG d (List.mem_append_right _ hd))
        refine ⟨by rw [h1, g1], by rw [h2, g2], by rw [h3, g3], ?_⟩
        rw [h4, g4]
        dsimp only
        rw [List.length_append]
        simp only [parentDrafts]
        omega
      · have hdq : draftsOf vt (q :: qs) = draftsOf vt qs :=
          draftsOf_cons_neg (by simpa using hq)
        rw [hdq] at hSy hG ⊢
        have hpp : processParent invMap eid vt st q = st := by
          simp only [processParent]
          rw [if_neg hq]
        rw [hpp]
        exact ih st hOK hSy hG

/-- Claim C6: with a well-formed initial store, identity-guarded drafts, and
pairwise-disjoint drafts, a second `/wix/sync` pass over unchanged external
data creates nothing, never runs the anti-duplicate merge block, reports
`updated` equal to the number of normalized (matched) variants, and leaves the
persisted store exactly as the first pass left it. -/
theorem second_run_idempotent (invMap : InvMap) (eid : Nat) (vt : VariantsTable)
    (parents : List Dict) (db : Store)
    (hOK : StoreOK db)
    (hG : ∀ d ∈ draftsOf vt parents, GuardedDraft d)
    (hpair : (draftsOf vt parents).Pairwise DisjointDrafts) :
    (runSyncCore invMap eid vt parents
      (runSyncCore invMap eid vt parents db).store).created = 0 ∧
    (runSyncCore invMap eid vt parents
      (runSyncCore invMap eid vt parents db).store).merged = 0 ∧
    (runSyncCore invMap eid vt parents
      (runSyncCore invMap eid vt parents db).store).updated =
      (draftsOf vt parents).length ∧
    (runSyncCore invMap eid vt parents
      (runSyncCore invMap eid vt parents db).store).store =
      (runSyncCore invMap eid vt parents db).store := by
  obtain ⟨hOK1, hS1⟩ := foldParents_establish invMap eid vt parents
    { store := db } [] hOK (by intro d hd; exact absurd hd (by simp)) hG
    (by intro d hd; exact absurd hd (by simp)) hpair
  obtain ⟨h1, h2, h3, h4⟩ := foldParents_noop invMap eid vt parents
    { store := (runSyncCore invMap eid vt parents db).store }
    hOK1 (fun d hd => hS1 d (Or.inr hd)) hG
  exact ⟨h2, h3, h4.trans (by simp), h1⟩

/-- Witness for C6: a fresh store, one parent and one variant; both sync
passes run, and the second creates nothing, merges nothing and reports one
update. -/
theorem second_run_idempotent_witness :
    (StoreOK wDb6 ∧ (∀ d ∈ draftsOf wVt6 wParents6, GuardedDraft d) ∧
      (draftsOf wVt6 wParents6).Pairwise DisjointDrafts) ∧
    ((runSyncCore [] 7 wVt6 wParents6
        (runSyncCore [] 7 wVt6 wParents6 wDb6).store).created = 0 ∧
      (runSyncCore [] 7 wVt6 wParents6
        (runSyncCore [] 7 wVt6 wParents6 wDb6).store).merged = 0 ∧
      (runSyncCore [] 7 wVt6 wParents6
        (runSyncCore [] 7 wVt6 wParents6 wDb6).store).updated =
        (draftsOf wVt6 wParents6).length ∧
      (runSyncCore [] 7 wVt6 wParents6
        (runSyncCore [] 7 wVt6 wParents6 wDb6).store).store =
        (runSyncCore [] 7 wVt6 wParents6 wDb6).store) := by
  have hOK : StoreOK wDb6 :=
    ⟨⟨List.Pairwise.nil, by simp [wDb6]⟩, List.Pairwise.nil, List.Pairwise.nil⟩
  have hdr : draftsOf wVt6 wParents6 = [wDraft6] := rfl
  have hG : ∀ d ∈ draftsOf wVt6 wParents6, GuardedDraft d := by
    intro d hd
    rw [hdr] at hd
    rw [List.mem_singleton.mp hd]
    exact ⟨by decide, by decide⟩
  have hpair : (draftsOf wVt6 wParents6).Pairwise DisjointDrafts := by
    rw [hdr]
    simp
  exact ⟨⟨hOK, hG, hpair⟩,
    second_run_idempotent [] 7 wVt6 wParents6 wDb6 hOK hG hpair⟩

end Luxura
